import Mathlib

/-!
Discord events API (`src/main/server.js`)

A shallow embedding of the event pipeline of `server.js`: the type classifier
`detectType`, the link labeller `labelForUrl`, the link and tag extractor
`extractLinksTags`, the status resolver `getStatus`, the cache-fronted fetcher
`fetchDiscordEvents`, and the handlers of the read endpoint and of the interest
endpoint, followed by the properties proved about them.

Conventions of the embedding

* A JavaScript string is a list of characters (`JSString`). The regular
  expressions and the `includes` tests of the program only look at ASCII
  characters and at white space, none of which is a surrogate, so that matching
  on code points and matching on UTF-16 code units agree. A lone surrogate,
  which a JavaScript string may hold, is not represented.
* What the JavaScript runtime owns and the program only calls (the Unicode case
  tables outside ASCII, the WHATWG URL parser) is collected in `Runtime` and is
  a parameter of every function that reaches it.
* A JavaScript number that holds a time value is `Option Int`: `none` is NaN.
  Time values are integers of magnitude at most 8.64e15, so sums and differences
  of them with the constants of the program are exact in double precision.
* Module-level mutable variables (`cachedEvents`, `cachedAt`, `interests`) are
  the fields of `State`, threaded explicitly. A call of `fetchDiscordEvents` or
  of a handler is one step: two pending calls are not interleaved.
* The path parameter `id` and the body property `action` reach the handlers as
  texts when they are given. The query parameter `type` is absent, a text, or,
  when the query repeats it or writes it with brackets, an array or an object
  (`QueryValue`).
-/

namespace DiscordEvents

/-! ## Strings -/

/-- A JavaScript string. -/
abbrev JSString := List Char

/-- What the program calls but the JavaScript runtime defines. -/
structure Runtime where
  /-- The Unicode uppercase mapping of a code point outside ASCII (one code point
  may map to several, as U+00DF does). -/
  upperNonAscii : Char → List Char
  /-- The Unicode lowercase mapping of a code point outside ASCII; it may depend
  on the text before and after the code point (the final-sigma rule). -/
  lowerNonAscii : List Char → Char → List Char → List Char
  /-- The value of `new URL(url).hostname`; `none` when the constructor throws. -/
  hostname : JSString → Option JSString

/-- Whether the code point is in the ASCII range. -/
def isAscii (c : Char) : Bool := c.toNat < 128

/-- The uppercase mapping on ASCII: `a`-`z` go to `A`-`Z`, the rest is fixed. -/
def asciiUpper (c : Char) : Char :=
  if 97 ≤ c.toNat ∧ c.toNat ≤ 122 then Char.ofNat (c.toNat - 32) else c

/-- The lowercase mapping on ASCII: `A`-`Z` go to `a`-`z`, the rest is fixed. -/
def asciiLower (c : Char) : Char :=
  if 65 ≤ c.toNat ∧ c.toNat ≤ 90 then Char.ofNat (c.toNat + 32) else c

/-- The method `String.prototype.toUpperCase`: every code point is replaced by
its uppercase mapping, independently of its neighbours. -/
def toUpperCase (rt : Runtime) (s : JSString) : JSString :=
  s.flatMap (fun c => if isAscii c then [asciiUpper c] else rt.upperNonAscii c)

/-- The loop of `String.prototype.toLowerCase`; `before` is the text already
passed. -/
def toLowerCaseFrom (rt : Runtime) : JSString → JSString → JSString
  | _, [] => []
  | before, c :: rest =>
    (if isAscii c then [asciiLower c] else rt.lowerNonAscii before c rest)
      ++ toLowerCaseFrom rt (before ++ [c]) rest

/-- The method `String.prototype.toLowerCase`. -/
def toLowerCase (rt : Runtime) (s : JSString) : JSString :=
  toLowerCaseFrom rt [] s

/-- The method `String.prototype.includes`: the needle starts at some position
of `s`. -/
def includes (s needle : JSString) : Bool :=
  s.tails.any (fun t => needle.isPrefixOf t)

/-- The value of `x || ""` for an optional string `x`. -/
def orEmpty : Option JSString → JSString
  | none => []
  | some s => s

/-- The line feed character. -/
def lineFeed : Char := Char.ofNat 10

/-! ## Type classifier (`detectType`, lines 29-37) -/

/-- The function `detectType(name, description)`. -/
def detectType (rt : Runtime) (name : JSString) (description : Option JSString) : JSString :=
  let text := toUpperCase rt (name ++ [lineFeed] ++ orEmpty description)
  if includes text "#IRL".toList then "irl".toList
  else if includes text "#VR".toList || includes text "#VIRTUAL".toList then "virtual".toList
  else if includes text "#RADIO".toList then "radio".toList
  else "other".toList

/-! ## Link labels (`labelForUrl`, lines 40-68) -/

/-- The value of `host.replace(/^www\./, "")`: a leading `www.` is dropped. -/
def stripWww : JSString → JSString
  | 'w' :: 'w' :: 'w' :: '.' :: rest => rest
  | host => host

/-- The function `labelForUrl(url)`: the `catch` branch is the case where the
URL constructor throws. -/
def labelForUrl (rt : Runtime) (url : JSString) : JSString :=
  match rt.hostname url with
  | none => "Link".toList
  | some hostname =>
    let host := toLowerCase rt hostname
    if includes host "youtube.com".toList || includes host "youtu.be".toList then "YouTube".toList
    else if includes host "twitch.tv".toList then "Twitch".toList
    else if includes host "spotify.com".toList then "Spotify".toList
    else if includes host "soundcloud.com".toList then "SoundCloud".toList
    else if includes host "mixcloud.com".toList then "Mixcloud".toList
    else if includes host "bandcamp.com".toList then "Bandcamp".toList
    else if includes host "tiktok.com".toList then "TikTok".toList
    else if includes host "facebook.com".toList then "Facebook".toList
    else if includes host "instagram.com".toList then "Instagram".toList
    else if includes host "hpsbassline.myftp.biz".toList ||
        includes host "azura.hpsbassline.myftp.biz".toList ||
        includes host "radio".toList then "Radio".toList
    else stripWww host

/-! ## Link and tag extractor (`extractLinksTags`, lines 70-87) -/

/-- The class `\s` of an ECMAScript regular expression without the `u` flag:
the white space and line terminator code points. -/
def isWhiteSpace (c : Char) : Bool :=
  let n := c.toNat
  (9 ≤ n && n ≤ 13) || n == 32 || n == 160 || n == 5760 || (8192 ≤ n && n ≤ 8202) ||
    n == 8232 || n == 8233 || n == 8239 || n == 8287 || n == 12288 || n == 65279

/-- The class `[^\s]`. -/
def isNonSpace (c : Char) : Bool := !isWhiteSpace c

/-- The class `\w` of an ECMAScript regular expression without the `u` and `i`
flags: ASCII letters, digits and the underscore. -/
def isWordChar (c : Char) : Bool :=
  let n := c.toNat
  (65 ≤ n && n ≤ 90) || (97 ≤ n && n ≤ 122) || (48 ≤ n && n ≤ 57) || n == 95

/-- The part `:\/\/[^\s]+` of the URL pattern, tried at the head of `s`: the text
matched and what is left after it. The class is greedy and nothing follows it,
so the longest run is the only candidate. -/
def matchUrlTail : JSString → Option (JSString × JSString)
  | ':' :: '/' :: '/' :: rest =>
    if rest.takeWhile isNonSpace = [] then none
    else some (':' :: '/' :: '/' :: rest.takeWhile isNonSpace, rest.dropWhile isNonSpace)
  | _ => none

/-- The pattern `https?:\/\/[^\s]+` tried at the head of `s`: the text matched
and what is left after it. The optional `s` is greedy: the branch that takes it
is tried first, the branch that skips it on failure. -/
def matchUrlAt : JSString → Option (JSString × JSString)
  | 'h' :: 't' :: 't' :: 'p' :: rest =>
    let taken :=
      match rest with
      | 's' :: rest2 => (matchUrlTail rest2).map (fun (r : JSString × JSString) => ('s' :: r.1, r.2))
      | _ => none
    match taken with
    | some r => some ('h' :: 't' :: 't' :: 'p' :: r.1, r.2)
    | none =>
      (matchUrlTail rest).map
        (fun (r : JSString × JSString) => ('h' :: 't' :: 't' :: 'p' :: r.1, r.2))
  | _ => none

/-- The pattern `#(\w+)` tried at the head of `s`: the text of capture group 1 and
what is left after the match. -/
def matchTagAt : JSString → Option (JSString × JSString)
  | '#' :: rest =>
    if rest.takeWhile isWordChar = [] then none
    else some (rest.takeWhile isWordChar, rest.dropWhile isWordChar)
  | _ => none

/-- The loop of a global (`g`) regular expression over a string, as run by
`String.prototype.match` and `String.prototype.matchAll`: the pattern is tried at
each position from the last index on; a match is recorded and the search resumes
where it ended, a failure moves one position on. `fuel` bounds the number of
positions tried. -/
def scanAllFuel (matchAt : JSString → Option (JSString × JSString)) :
    Nat → JSString → List JSString
  | 0, _ => []
  | _ + 1, [] => []
  | fuel + 1, c :: cs =>
    match matchAt (c :: cs) with
    | some (m, rest) => m :: scanAllFuel matchAt fuel rest
    | none => scanAllFuel matchAt fuel cs

/-- All matches of a global regular expression in `s`. Both patterns of the
program consume at least one character, so `s.length` positions suffice
(`scanAllFuel_of_le`). -/
def scanAll (matchAt : JSString → Option (JSString × JSString)) (s : JSString) : List JSString :=
  scanAllFuel matchAt s.length s

/-- One entry of `links`. -/
structure Link where
  url : JSString
  label : JSString
deriving DecidableEq

/-- The reserved classification markers, `["IRL", "VR", "VIRTUAL", "RADIO"]`. -/
def reservedTags : List JSString :=
  ["IRL".toList, "VR".toList, "VIRTUAL".toList, "RADIO".toList]

/-- The result of `extractLinksTags`. -/
structure LinksTags where
  links : List Link
  tags : List JSString
deriving DecidableEq

/-- The function `extractLinksTags(description)`; `!description` holds for an absent and for an
empty description. -/
def extractLinksTags (rt : Runtime) : Option JSString → LinksTags
  | none => { links := [], tags := [] }
  | some [] => { links := [], tags := [] }
  | some description =>
    let matches_ := scanAll matchUrlAt description
    let links := matches_.map (fun m => { url := m, label := labelForUrl rt m })
    let tagMatches := scanAll matchTagAt description
    let tags := (tagMatches.map (fun m => toUpperCase rt m)).filter
      (fun t => !(reservedTags.contains t))
    { links := links, tags := tags }

/-! ## Status resolver (`getStatus`, lines 90-108) -/

/-- A timestamp field of an event as the program reads it. -/
inductive Timestamp where
  /-- The field is `null`, `undefined` or the empty string: all falsy. -/
  | absent
  /-- The field is a non-empty text; `ms` is `new Date(text).getTime()`, with
  `none` for NaN (the text is not a date). -/
  | text (ms : Option Int)
deriving DecidableEq

/-- The JavaScript `<` on numbers: false when a side is NaN. -/
def numLt : Option Int → Option Int → Bool
  | some a, some b => a < b
  | _, _ => false

/-- The JavaScript `<=` on numbers: false when a side is NaN. -/
def numLe : Option Int → Option Int → Bool
  | some a, some b => a ≤ b
  | _, _ => false

/-- The JavaScript `+` on numbers: NaN when a side is NaN. -/
def numAdd : Option Int → Option Int → Option Int
  | some a, some b => some (a + b)
  | _, _ => none

/-- The result of `getStatus`. -/
structure Status where
  code : JSString
  label : JSString
deriving DecidableEq

/-- The function `getStatus(startIso, endIso)`, with the value `now` of `Date.now()`. -/
def getStatus (now : Int) (startIso endIso : Timestamp) : Status :=
  match startIso with
  | .absent => { code := "upcoming".toList, label := "Upcoming".toList }
  | .text startMs =>
    let endMs :=
      match endIso with
      | .text ms => ms
      | .absent => numAdd startMs (some (3 * 3600000))
    if numLt (some now) startMs then
      { code := "upcoming".toList, label := "Upcoming".toList }
    else if numLe startMs (some now) && numLe (some now) endMs then
      { code := "live".toList, label := "Live".toList }
    else
      { code := "past".toList, label := "Past".toList }

/-! ## Interest counters (`interests`, `getStats`, lines 19-26) -/

/-- A counter pair `{ going, interested }`. -/
structure Counter where
  going : Nat
  interested : Nat
deriving DecidableEq

/-- The own properties of the object `interests`, in creation order. -/
abbrev Interests := List (JSString × Counter)

/-- The property names every plain object inherits from `Object.prototype`; the
value found under each of them is a function or an object, hence truthy. -/
def objectPrototypeKeys : List JSString :=
  ["constructor".toList, "__defineGetter__".toList, "__defineSetter__".toList,
   "hasOwnProperty".toList, "__lookupGetter__".toList, "__lookupSetter__".toList,
   "isPrototypeOf".toList, "propertyIsEnumerable".toList, "toString".toList,
   "valueOf".toList, "__proto__".toList, "toLocaleString".toList]

/-- The object `getStats` returns, by reference. -/
inductive StatsRef where
  /-- The counter pair stored in `interests` under the key. -/
  | counter (id : JSString)
  /-- The member of `Object.prototype` that `interests[key]` reads when
  `interests` has no own property of that name. -/
  | inherited (key : JSString)
deriving DecidableEq

/-- The function `getStats(id)`: the object returned and the store after the call. An entry is
created when `interests[id]` is falsy, that is when the key is neither an own
property (own values are objects) nor inherited. -/
def getStats (interests : Interests) (id : JSString) : StatsRef × Interests :=
  match interests.lookup id with
  | some _ => (.counter id, interests)
  | none =>
    if objectPrototypeKeys.contains id then (.inherited id, interests)
    else (.counter id, interests ++ [(id, { going := 0, interested := 0 })])

/-! ## Events -/

/-- A raw scheduled event: the fields the program reads. -/
structure RawEvent where
  id : JSString
  name : JSString
  description : Option JSString
  scheduled_start_time : Timestamp
  scheduled_end_time : Timestamp
  /-- The value of `e.entity_metadata?.location`; `none` when it is `undefined`
  or `null`. -/
  location : Option JSString
  image : Option JSString
deriving DecidableEq

/-- An enriched event, the record built by the two `map` callbacks. -/
structure EnrichedEvent where
  id : JSString
  name : JSString
  description : Option JSString
  image : Option JSString
  start : Timestamp
  end_ : Timestamp
  type : JSString
  location : Option JSString
  link : JSString
  links : List Link
  tags : List JSString
  status : Status
  stats : StatsRef
deriving DecidableEq

/-- The value of `x || null` for an optional string `x`: the empty string is
falsy. -/
def orNull : Option JSString → Option JSString
  | some [] => none
  | x => x

/-- The callback of `mock.map` (lines 139-160) on one event; `now` is the value
of `Date.now()` inside `getStatus`. -/
def enrichMock (rt : Runtime) (now : Int) (interests : Interests) (e : RawEvent) :
    EnrichedEvent × Interests :=
  let type := detectType rt e.name e.description
  let stats := getStats interests e.id
  let lt := extractLinksTags rt e.description
  let status := getStatus now e.scheduled_start_time e.scheduled_end_time
  ({ id := e.id, name := e.name, description := e.description,
     image := orNull e.image,
     start := e.scheduled_start_time, end_ := e.scheduled_end_time,
     type := type, location := orNull e.location,
     link := "#".toList, links := lt.links, tags := lt.tags,
     status := status, stats := stats.1 }, stats.2)

/-- The callback of `events.map` (lines 202-227) on one event. -/
def enrich (rt : Runtime) (guildId : JSString) (now : Int) (interests : Interests)
    (e : RawEvent) : EnrichedEvent × Interests :=
  let type := detectType rt e.name e.description
  let stats := getStats interests e.id
  let lt := extractLinksTags rt (some (orEmpty e.description))
  let status := getStatus now e.scheduled_start_time e.scheduled_end_time
  let imageUrl :=
    match orNull e.image with
    | some image =>
      some ("https://cdn.discordapp.com/guild-events/".toList ++ e.id ++ "/".toList ++ image ++
        ".webp?size=1024".toList)
    | none => none
  ({ id := e.id, name := e.name, description := e.description,
     image := imageUrl,
     start := e.scheduled_start_time, end_ := e.scheduled_end_time,
     type := type, location := orNull e.location,
     link := "https://discord.com/events/".toList ++ guildId ++ "/".toList ++ e.id,
     links := lt.links, tags := lt.tags,
     status := status, stats := stats.1 }, stats.2)

/-- The method `Array.prototype.map` with a callback that updates the interest store: the
events are visited in order; `clock i` is the value of `Date.now()` read while the
event at index `i` is processed. -/
def mapEvents (f : Int → Interests → RawEvent → EnrichedEvent × Interests)
    (clock : Nat → Int) : Nat → Interests → List RawEvent → List EnrichedEvent × Interests
  | _, interests, [] => ([], interests)
  | i, interests, e :: es =>
    let r := f (clock i) interests e
    let rs := mapEvents f clock (i + 1) r.2 es
    (r.1 :: rs.1, rs.2)

/-- The function `getMockEvents()` (lines 111-161); `now` is the value of `Date.now()` at line
112. A date written by `toISOString` and read back by `new Date` is the same
time value. -/
def getMockEvents (rt : Runtime) (now : Int) (clock : Nat → Int) (interests : Interests) :
    List EnrichedEvent × Interests :=
  let mock : List RawEvent :=
    [ { id := "1".toList,
        name := "Street Session: Downtown Vibes #IRL #DNB".toList,
        description := some ("Open DJ set in the city center.".toList ++ [lineFeed] ++
          "#IRL #DNB".toList ++ [lineFeed] ++ "https://hpsbassline.myftp.biz/".toList),
        scheduled_start_time := .text (some (now + 30 * 60000)),
        scheduled_end_time := .text (some (now + 2 * 3600000)),
        location := some "Haapsalu".toList,
        image := some "https://images.pexels.com/photos/1190298/pexels-photo-1190298.jpeg".toList },
      { id := "2".toList,
        name := "VR Club Showcase #VR #HARDCORE".toList,
        description := some ("Immersive VR experience.".toList ++ [lineFeed] ++
          "#VR #HARDCORE".toList ++ [lineFeed] ++ "https://twitch.tv/hps_bassline".toList),
        scheduled_start_time := .text (some (now + 3 * 3600000)),
        scheduled_end_time := .absent,
        location := some "VRChat".toList,
        image := some "https://images.pexels.com/photos/3404200/pexels-photo-3404200.jpeg".toList } ]
  mapEvents (enrichMock rt) clock 0 interests mock

/-! ## Cache-fronted fetcher (`fetchDiscordEvents`, lines 164-233) -/

/-- The freshness window `CACHE_TTL_MS`, in milliseconds. -/
def CACHE_TTL_MS : Int := 15000

/-- The module-level mutable variables. -/
structure State where
  /-- The variable `cachedEvents`: `none` is `null`; an array, even an empty one,
  is truthy. -/
  cachedEvents : Option (List EnrichedEvent)
  cachedAt : Int
  interests : Interests
deriving DecidableEq

/-- The state at module load. -/
def State.initial : State := { cachedEvents := none, cachedAt := 0, interests := [] }

/-- The environment variables `GUILD_ID` and `DISCORD_BOT_TOKEN`. -/
structure Config where
  guildId : Option JSString
  discordToken : Option JSString
deriving DecidableEq

/-- Whether a string read from the environment is truthy: set and not empty. -/
def truthy : Option JSString → Bool
  | none => false
  | some [] => false
  | some _ => true

/-- The negation of the guard `!GUILD_ID || !DISCORD_TOKEN`. -/
def Config.configured (cfg : Config) : Bool :=
  truthy cfg.guildId && truthy cfg.discordToken

/-- What the call of `fetch` at line 176 comes back with. -/
inductive Upstream where
  /-- The promise rejects: no response was received (a transport failure). -/
  | failed
  /-- A response with an HTTP status; `body` is what `res.json()` yields read as an
  array of events, `none` when the body is not JSON or not an array (then
  `res.json()` or `events.map` throws before the callback has run on any event). -/
  | response (status : Nat) (body : Option (List RawEvent))
deriving DecidableEq

/-- The property `res.ok`: the status is in the range 200-299. -/
def statusOk (status : Nat) : Bool := 200 ≤ status && status ≤ 299

/-- The errors `fetchDiscordEvents` can end with. -/
inductive FetchError where
  /-- The call of `fetch` was rejected. -/
  | transport
  /-- The error `Rate limited by Discord and no cache available`. -/
  | rateLimitedNoCache
  /-- The error `Failed to fetch events from Discord`. -/
  | notOk
  /-- The body of a success response is not an array of events. -/
  | badPayload
deriving DecidableEq

/-- The outcome of one call of `fetchDiscordEvents`: what it returns or throws, the
state it leaves, and the number of calls of `fetch` it made. -/
structure FetchResult where
  result : Except FetchError (List EnrichedEvent)
  state : State
  upstreamCalls : Nat

/-- The part of `fetchDiscordEvents` from the call of `fetch` on (lines 176-233),
reached when the cache does not answer. -/
def callUpstream (rt : Runtime) (cfg : Config) (now : Int) (clock : Nat → Int)
    (upstream : Upstream) (st : State) : FetchResult :=
  match upstream with
  | .failed => { result := .error .transport, state := st, upstreamCalls := 1 }
  | .response status body =>
    if status = 429 then
      match st.cachedEvents with
      | some cached => { result := .ok cached, state := st, upstreamCalls := 1 }
      | none => { result := .error .rateLimitedNoCache, state := st, upstreamCalls := 1 }
    else if !statusOk status then
      { result := .error .notOk, state := st, upstreamCalls := 1 }
    else
      match body with
      | none => { result := .error .badPayload, state := st, upstreamCalls := 1 }
      | some events =>
        let r := mapEvents (enrich rt (orEmpty cfg.guildId)) clock 0 st.interests events
        { result := .ok r.1,
          state := { cachedEvents := some r.1, cachedAt := now, interests := r.2 },
          upstreamCalls := 1 }

/-- The function `fetchDiscordEvents({ ignoreCache })`; `now` is the value of `Date.now()` at
line 170 (at line 112 without credentials). -/
def fetchDiscordEvents (rt : Runtime) (cfg : Config) (now : Int) (clock : Nat → Int)
    (ignoreCache : Bool) (upstream : Upstream) (st : State) : FetchResult :=
  if !cfg.configured then
    let r := getMockEvents rt now clock st.interests
    { result := .ok r.1, state := { st with interests := r.2 }, upstreamCalls := 0 }
  else
    match (if ignoreCache then none else
        if now - st.cachedAt < CACHE_TTL_MS then st.cachedEvents else none) with
    | some cached => { result := .ok cached, state := st, upstreamCalls := 0 }
    | none => callUpstream rt cfg now clock upstream st

/-- The platform names `labelForUrl` tests before the radio names, in its order. -/
def platformNames : List JSString :=
  ["youtube.com".toList, "youtu.be".toList, "twitch.tv".toList, "spotify.com".toList,
   "soundcloud.com".toList, "mixcloud.com".toList, "bandcamp.com".toList,
   "tiktok.com".toList, "facebook.com".toList, "instagram.com".toList]

/-- The host names `labelForUrl` maps to `Radio`. -/
def radioNames : List JSString :=
  ["hpsbassline.myftp.biz".toList, "azura.hpsbassline.myftp.biz".toList, "radio".toList]

/-! ## The extractor as the specification words it -/

/-- The hashtag token that starts at the head of `s`, if one does: a `#` followed
by one or more word characters, as many as there are; the token is the run of
word characters. -/
def hashtagAt : JSString → Option JSString
  | '#' :: rest =>
    if rest.takeWhile isWordChar = [] then none else some (rest.takeWhile isWordChar)
  | _ => none

/-- The hashtag tokens of a text, in order of appearance: the token at each
position of the text that starts one. -/
def hashtagTokens (s : JSString) : List JSString :=
  s.tails.filterMap hashtagAt

/-- The tags the specification describes: the hashtag tokens, each uppercased,
without those equal to a reserved marker. -/
def specTags (s : JSString) : List JSString :=
  ((hashtagTokens s).map (fun w => w.map asciiUpper)).filter (fun t => !(reservedTags.contains t))

/-- The match of a literal text followed by `[^\s]+` at the head of `s`: the text
matched and what is left after it. -/
def literalThenRun (lit s : JSString) : Option (JSString × JSString) :=
  if lit.isPrefixOf s && !((s.drop lit.length).takeWhile isNonSpace).isEmpty then
    some (lit ++ (s.drop lit.length).takeWhile isNonSpace,
      (s.drop lit.length).dropWhile isNonSpace)
  else none

/-- Whether the text begins with `http://` or `https://` followed by at least one
more character. -/
def beginsUrl (s : JSString) : Bool :=
  ("http://".toList.isPrefixOf s && decide (7 < s.length)) ||
    ("https://".toList.isPrefixOf s && decide (8 < s.length))

/-- The maximal whitespace-free substrings of a text, in order: the non-empty
pieces between white space characters. -/
def whitespaceFreeRuns (s : JSString) : List JSString :=
  (s.splitOnP isWhiteSpace).filter (fun r => !r.isEmpty)

/-- The longest end part of a whitespace-free run that begins a URL, if there is
one: it starts at the first position of the run where `http://` or `https://`
and one more character are found, and extends to the end of the run. -/
def urlOfRun (run : JSString) : Option JSString :=
  run.tails.find? beginsUrl

/-- The URL substrings of a text as the specification describes them, in order of
appearance: at most one in each maximal whitespace-free run. -/
def urlSubstrings (s : JSString) : List JSString :=
  (whitespaceFreeRuns s).filterMap urlOfRun

/-! ## Read endpoint (`GET /api/events`, lines 236-264) -/

/-- What the read endpoint answers with. -/
inductive EventsResponse where
  /-- The call `res.json(events)`: status 200 and the list of events. -/
  | events (list : List EnrichedEvent)
  /-- The call `res.status(500).json(...)` with the error `Failed to load events`. -/
  | failure
deriving DecidableEq

/-- The test `e.status.code !== "past"` of both filters on the status. -/
def notPast (e : EnrichedEvent) : Bool := e.status.code != "past".toList

/-- The handler of `GET /api/events` on a request whose parameter `type` is absent
or a text: the response and the state it leaves. `queryType` is that parameter,
`queryForce` the parameter `force` when it is a text; the `catch` branch is
taken when `fetchDiscordEvents` throws. The handler on every request is
`getEventsHandler`. -/
def getEvents (rt : Runtime) (cfg : Config) (now : Int) (clock : Nat → Int)
    (queryType queryForce : Option JSString) (upstream : Upstream) (st : State) :
    EventsResponse × State :=
  let filterType := toLowerCase rt (orEmpty queryType)
  let ignoreCache := decide (queryForce = some "1".toList)
  let r := fetchDiscordEvents rt cfg now clock ignoreCache upstream st
  match r.result with
  | .ok events =>
    let events := if filterType ≠ [] then events.filter (fun e => e.type == filterType) else events
    let events := events.filter notPast
    (.events events, r.state)
  | .error _ =>
    match r.state.cachedEvents with
    | some cached => (.events (cached.filter notPast), r.state)
    | none => (.failure, r.state)

/-- A query parameter as the router hands it to the handler. -/
inductive QueryValue where
  /-- The parameter is not in the query: `undefined`. -/
  | absent
  /-- The parameter is given once: a text, possibly empty. -/
  | text (value : JSString)
  /-- The parameter is given several times or with brackets: an array or an
  object, which is truthy and has no method `toLowerCase`. -/
  | other
deriving DecidableEq

/-- The handler of `GET /api/events` (lines 236-264) on every request: the
response and the state it leaves. When the parameter `type` is an array or an
object, `(req.query.type || "").toLowerCase()` throws at line 238, inside the
`try` block and before `fetchDiscordEvents` is called, and the `catch` branch
answers from the cache or with the failure. -/
def getEventsHandler (rt : Runtime) (cfg : Config) (now : Int) (clock : Nat → Int)
    (queryType : QueryValue) (queryForce : Option JSString) (upstream : Upstream)
    (st : State) : EventsResponse × State :=
  match queryType with
  | .absent => getEvents rt cfg now clock none queryForce upstream st
  | .text value => getEvents rt cfg now clock (some value) queryForce upstream st
  | .other =>
    match st.cachedEvents with
    | some cached => (.events (cached.filter notPast), st)
    | none => (.failure, st)

/-! ## Interest endpoint (`POST /api/events/:id/interest`, lines 267-279) -/

/-- What the interest endpoint answers with. -/
inductive InterestResponse where
  /-- Status 400 with the error `Invalid action`. -/
  | invalidAction
  /-- Status 200 with the counter pair, as it is after the increment. -/
  | counter (stats : Counter)
  /-- Status 200 with the member of `Object.prototype` found under the key: no
  counter pair. Its property named by the action was `undefined` or NaN and is NaN
  after `+= 1`. -/
  | inheritedMember (key : JSString)
deriving DecidableEq

/-- The statement `stats[action] += 1` on a counter pair, for the two actions the
handler lets through. Counters stay far below 2^53, where adding 1 is exact. -/
def bump (action : JSString) (c : Counter) : Counter :=
  if action = "going".toList then { c with going := c.going + 1 }
  else { c with interested := c.interested + 1 }

/-- An update of the counter pair stored under a key, through the reference
`getStats` returned. -/
def updateCounter (id : JSString) (f : Counter → Counter) : Interests → Interests
  | [] => []
  | (key, c) :: rest =>
    if key = id then (key, f c) :: rest else (key, c) :: updateCounter id f rest

/-- The counter pair a reference points to. A reference `getStats` returns as a
counter always has its entry in the store (`getStats_lookup`). -/
def counterAt (interests : Interests) (key : JSString) : Counter :=
  (interests.lookup key).getD { going := 0, interested := 0 }

/-- The handler of `POST /api/events/:id/interest`: the response and the state it
leaves. `action` is the property `action` of the body when it is a text, `none`
when the body or the property is missing or is not a text. -/
def postInterest (id : JSString) (action : Option JSString) (st : State) :
    InterestResponse × State :=
  match action with
  | none => (.invalidAction, st)
  | some a =>
    if a ≠ "going".toList ∧ a ≠ "interested".toList then (.invalidAction, st)
    else
      let stats := getStats st.interests id
      match stats.1 with
      | .inherited key => (.inheritedMember key, { st with interests := stats.2 })
      | .counter key =>
        let interests := updateCounter key (bump a) stats.2
        (.counter (counterAt interests key), { st with interests := interests })

/-- A raw event for evaluating the definitions: a club night tagged `#VR` that
starts at time 5000000 and has no end, description, location or image. -/
def sampleRawEvent : RawEvent :=
  { id := "7".toList,
    name := "Club night #VR".toList,
    description := none,
    scheduled_start_time := .text (some 5000000),
    scheduled_end_time := .absent,
    location := none,
    image := none }

/-- A runtime for evaluating the definitions on plain ASCII inputs: code points
outside ASCII are left alone, and the host name of a URL of the plain form
`scheme://host/path` is read off the text. -/
def asciiRuntime : Runtime where
  upperNonAscii := fun c => [c]
  lowerNonAscii := fun _ c _ => [c]
  hostname := fun url =>
    match url.dropWhile (fun c => c != ':') with
    | ':' :: '/' :: '/' :: rest =>
      some ((rest.takeWhile (fun c => c != '/' && c != '?' && c != '#' && c != ':')).map asciiLower)
    | _ => none

/-! ## Theorems -/

/-- The needle test of `includes` is the infix relation on lists. -/
theorem includes_iff (s needle : JSString) : includes s needle = true ↔ needle <:+: s := by
  unfold includes
  rw [List.any_eq_true, List.infix_iff_prefix_suffix]
  constructor
  · rintro ⟨t, ht, hp⟩
    exact ⟨t, List.isPrefixOf_iff_prefix.mp hp, (List.mem_tails _ _).mp ht⟩
  · rintro ⟨t, hp, ht⟩
    exact ⟨t, (List.mem_tails _ _).mpr ht, List.isPrefixOf_iff_prefix.mpr hp⟩

/-- C1: `detectType` returns one of the four codes, decided on the uppercased
text `name + "\n" + description` (an absent description counts as empty) in the
priority order `#IRL`, then `#VR` or `#VIRTUAL`, then `#RADIO`, then other; a text
holding both `#IRL` and `#VR` is classified `irl`. -/
theorem detectType_priority (rt : Runtime) (name : JSString) (description : Option JSString) :
    (detectType rt name description ∈
      ["irl".toList, "virtual".toList, "radio".toList, "other".toList]) ∧
    (detectType rt name description = "irl".toList ↔
      "#IRL".toList <:+: toUpperCase rt (name ++ [lineFeed] ++ orEmpty description)) ∧
    (detectType rt name description = "virtual".toList ↔
      ¬ "#IRL".toList <:+: toUpperCase rt (name ++ [lineFeed] ++ orEmpty description) ∧
      ("#VR".toList <:+: toUpperCase rt (name ++ [lineFeed] ++ orEmpty description) ∨
        "#VIRTUAL".toList <:+: toUpperCase rt (name ++ [lineFeed] ++ orEmpty description))) ∧
    (detectType rt name description = "radio".toList ↔
      ¬ "#IRL".toList <:+: toUpperCase rt (name ++ [lineFeed] ++ orEmpty description) ∧
      ¬ "#VR".toList <:+: toUpperCase rt (name ++ [lineFeed] ++ orEmpty description) ∧
      ¬ "#VIRTUAL".toList <:+: toUpperCase rt (name ++ [lineFeed] ++ orEmpty description) ∧
      "#RADIO".toList <:+: toUpperCase rt (name ++ [lineFeed] ++ orEmpty description)) ∧
    (detectType rt name description = "other".toList ↔
      ¬ "#IRL".toList <:+: toUpperCase rt (name ++ [lineFeed] ++ orEmpty description) ∧
      ¬ "#VR".toList <:+: toUpperCase rt (name ++ [lineFeed] ++ orEmpty description) ∧
      ¬ "#VIRTUAL".toList <:+: toUpperCase rt (name ++ [lineFeed] ++ orEmpty description) ∧
      ¬ "#RADIO".toList <:+: toUpperCase rt (name ++ [lineFeed] ++ orEmpty description)) ∧
    ("#IRL".toList <:+: toUpperCase rt (name ++ [lineFeed] ++ orEmpty description) →
      "#VR".toList <:+: toUpperCase rt (name ++ [lineFeed] ++ orEmpty description) →
      detectType rt name description = "irl".toList) := by
  dsimp only [detectType]
  generalize toUpperCase rt (name ++ [lineFeed] ++ orEmpty description) = text
  rw [← includes_iff, ← includes_iff, ← includes_iff, ← includes_iff]
  generalize includes text "#IRL".toList = bi
  generalize includes text "#VR".toList = bv
  generalize includes text "#VIRTUAL".toList = bw
  generalize includes text "#RADIO".toList = br
  cases bi <;> cases bv <;> cases bw <;> cases br <;> simp

/-- C1 at a concrete event: the name `Party #irl #vr` with no description holds
both markers once uppercased and is classified `irl`. -/
theorem detectType_priority_witness :
    detectType asciiRuntime "Party #irl #vr".toList none = "irl".toList :=
  (detectType_priority asciiRuntime "Party #irl #vr".toList none).2.2.2.2.2
    ((includes_iff _ _).mp (by decide)) ((includes_iff _ _).mp (by decide))

/-- C2, as stated, fails: with start 10, end 5 and now 7 the current time is after
the end, and the status is `upcoming`, not `past`. -/
theorem getStatus_after_end_counterexample :
    (7 : Int) > 5 ∧
    (getStatus 7 (.text (some 10)) (.text (some 5))).code = "upcoming".toList ∧
    (getStatus 7 (.text (some 10)) (.text (some 5))).code ≠ "past".toList := by
  decide

/-- C2, amended: with start and end present, the status is `upcoming` when
`now < start`, `live` when `start ≤ now ≤ end`, and `past` when `start ≤ now` and
`now > end`; with no start it is `upcoming` whatever `now` and the end are. -/
theorem getStatus_cases (now start end_ : Int) (endIso : Timestamp) :
    (now < start →
      (getStatus now (.text (some start)) (.text (some end_))).code = "upcoming".toList) ∧
    (start ≤ now → now ≤ end_ →
      (getStatus now (.text (some start)) (.text (some end_))).code = "live".toList) ∧
    (start ≤ now → now > end_ →
      (getStatus now (.text (some start)) (.text (some end_))).code = "past".toList) ∧
    (getStatus now .absent endIso).code = "upcoming".toList := by
  refine ⟨fun h => ?_, fun h1 h2 => ?_, fun h1 h2 => ?_, rfl⟩
  · simp [getStatus, numLt, h]
  · simp [getStatus, numLt, numLe, h1, h2, not_lt.mpr h1]
  · simp [getStatus, numLt, numLe, h1, not_lt.mpr h1, not_le.mpr h2]

/-- C2, amended, at start 5 and end 6: `upcoming` at 4, `live` at 6, `past` at 7. -/
theorem getStatus_cases_witness :
    (getStatus 4 (.text (some 5)) (.text (some 6))).code = "upcoming".toList ∧
    (getStatus 6 (.text (some 5)) (.text (some 6))).code = "live".toList ∧
    (getStatus 7 (.text (some 5)) (.text (some 6))).code = "past".toList :=
  ⟨(getStatus_cases 4 5 6 .absent).1 (by decide),
   (getStatus_cases 6 5 6 .absent).2.1 (by decide) (by decide),
   (getStatus_cases 7 5 6 .absent).2.2.1 (by decide) (by decide)⟩

/-- C3: with a start that is a date and no end, the end used is
`start + 10800000` ms: the status is `upcoming` when `now < start`, `live` when
`start ≤ now ≤ start + 10800000`, and `past` when `now > start + 10800000`. -/
theorem getStatus_default_end (now start : Int) :
    (now < start →
      (getStatus now (.text (some start)) .absent).code = "upcoming".toList) ∧
    (start ≤ now → now ≤ start + 10800000 →
      (getStatus now (.text (some start)) .absent).code = "live".toList) ∧
    (now > start + 10800000 →
      (getStatus now (.text (some start)) .absent).code = "past".toList) := by
  refine ⟨fun h => ?_, fun h1 h2 => ?_, fun h => ?_⟩
  · simp [getStatus, numLt, h]
  · simp [getStatus, numLt, numLe, numAdd, h1, h2, not_lt.mpr h1]
  · have h1 : ¬ now < start := by omega
    have h2 : ¬ now ≤ start + 10800000 := by omega
    simp [getStatus, numLt, numLe, numAdd, h1, h2]

/-- C3 at start 1000: `upcoming` at 999, `live` at 10801000, `past` at 10801001. -/
theorem getStatus_default_end_witness :
    (getStatus 999 (.text (some 1000)) .absent).code = "upcoming".toList ∧
    (getStatus 10801000 (.text (some 1000)) .absent).code = "live".toList ∧
    (getStatus 10801001 (.text (some 1000)) .absent).code = "past".toList :=
  ⟨(getStatus_default_end 999 1000).1 (by decide),
   (getStatus_default_end 10801000 1000).2.1 (by decide) (by decide),
   (getStatus_default_end 10801001 1000).2.2 (by decide)⟩

/-- Lowercasing passes over a leading part of the text: what follows it is
lowercased with that part added to the text before. -/
theorem toLowerCaseFrom_append (rt : Runtime) (x y before : JSString) :
    ∃ done, toLowerCaseFrom rt before (x ++ y) =
      done ++ toLowerCaseFrom rt (before ++ x) y := by
  induction x generalizing before with
  | nil => exact ⟨[], by simp⟩
  | cons c x ih =>
    obtain ⟨done, hdone⟩ := ih (before ++ [c])
    refine ⟨(if isAscii c then [asciiLower c] else rt.lowerNonAscii before c (x ++ y)) ++ done, ?_⟩
    simp [toLowerCaseFrom, hdone, List.append_assoc]

/-- A leading part of ASCII characters none of which is an uppercase letter is
left unchanged by lowercasing, whatever surrounds it. -/
theorem toLowerCaseFrom_fixed (rt : Runtime) (x y before : JSString)
    (hx : ∀ c ∈ x, isAscii c = true ∧ asciiLower c = c) :
    toLowerCaseFrom rt before (x ++ y) = x ++ toLowerCaseFrom rt (before ++ x) y := by
  induction x generalizing before with
  | nil => simp
  | cons c x ih =>
    have hc := hx c (List.mem_cons_self _ _)
    simp [toLowerCaseFrom, hc.1, hc.2, ih (before ++ [c])
      (fun d hd => hx d (List.mem_cons_of_mem _ hd)), List.append_assoc]

/-- A lowercase ASCII needle found in a text is found in the lowercased text. -/
theorem infix_toLowerCase (rt : Runtime) (needle s : JSString)
    (hn : ∀ c ∈ needle, isAscii c = true ∧ asciiLower c = c) (h : needle <:+: s) :
    needle <:+: toLowerCase rt s := by
  obtain ⟨pre, post, rfl⟩ := h
  unfold toLowerCase
  obtain ⟨done, hdone⟩ := toLowerCaseFrom_append rt pre (needle ++ post) []
  rw [List.append_assoc, hdone, toLowerCaseFrom_fixed rt needle post _ hn]
  exact ⟨done, toLowerCaseFrom rt ([] ++ pre ++ needle) post, by simp [List.append_assoc]⟩

/-- C6, as stated, fails: the host name `radio.youtube.com` contains `radio`, and
the label of `https://radio.youtube.com/` is `YouTube`. -/
theorem labelForUrl_radio_counterexample :
    asciiRuntime.hostname "https://radio.youtube.com/".toList
      = some "radio.youtube.com".toList ∧
    includes "radio.youtube.com".toList "radio".toList = true ∧
    labelForUrl asciiRuntime "https://radio.youtube.com/".toList = "YouTube".toList ∧
    labelForUrl asciiRuntime "https://radio.youtube.com/".toList ≠ "Radio".toList := by
  decide

/-- C6, amended: when the URL parses, its host name contains `radio` or one of the
two radio domains, and the lowercased host name contains none of the ten platform
names tested first, the label is `Radio`. -/
theorem labelForUrl_radio (rt : Runtime) (url hostname : JSString)
    (hparse : rt.hostname url = some hostname)
    (hradio : ∃ r ∈ radioNames, r <:+: hostname)
    (hplatform : ∀ p ∈ platformNames, ¬ p <:+: toLowerCase rt hostname) :
    labelForUrl rt url = "Radio".toList := by
  have hlow : ∃ r ∈ radioNames, includes (toLowerCase rt hostname) r = true := by
    obtain ⟨r, hr, hin⟩ := hradio
    have hfixed : ∀ r ∈ radioNames, ∀ c ∈ r, isAscii c = true ∧ asciiLower c = c := by decide
    exact ⟨r, hr, (includes_iff _ _).mpr (infix_toLowerCase rt r hostname (hfixed r hr) hin)⟩
  have hp : ∀ p ∈ platformNames, includes (toLowerCase rt hostname) p = false := by
    intro p hmem
    cases hc : includes (toLowerCase rt hostname) p
    · rfl
    · exact absurd ((includes_iff _ _).mp hc) (hplatform p hmem)
  simp only [platformNames, List.forall_mem_cons, List.not_mem_nil, false_implies,
    implies_true, and_true] at hp
  obtain ⟨h1, h2, h3, h4, h5, h6, h7, h8, h9, h10⟩ := hp
  simp only [radioNames, List.mem_cons, List.mem_singleton, List.not_mem_nil, or_false,
    exists_eq_or_imp, exists_eq_left] at hlow
  unfold labelForUrl
  rw [hparse]
  dsimp only
  rw [h1, h2, h3, h4, h5, h6, h7, h8, h9, h10]
  rcases hlow with h | h | h <;> rw [h] <;> simp

/-- C6, amended, at `https://radio.example.org/`: the label is `Radio`. -/
theorem labelForUrl_radio_witness :
    labelForUrl asciiRuntime "https://radio.example.org/".toList = "Radio".toList :=
  labelForUrl_radio asciiRuntime "https://radio.example.org/".toList
    "radio.example.org".toList (by decide)
    ⟨"radio".toList, by decide, (includes_iff _ _).mp (by decide)⟩
    (by
      have hnone : ∀ p ∈ platformNames,
          includes (toLowerCase asciiRuntime "radio.example.org".toList) p = false := by decide
      intro p hp hin
      rw [← includes_iff, hnone p hp] at hin
      exact Bool.false_ne_true hin)

/-- A call that reaches `fetch` makes exactly one upstream call. -/
theorem callUpstream_calls (rt : Runtime) (cfg : Config) (now : Int) (clock : Nat → Int)
    (upstream : Upstream) (st : State) :
    (callUpstream rt cfg now clock upstream st).upstreamCalls = 1 := by
  unfold callUpstream
  repeat (first | rfl | split)

/-- With credentials, a call without the bypass flag on a cache younger than the
freshness window returns the cached sequence and touches nothing. -/
theorem fetch_hit (rt : Runtime) (cfg : Config) (now : Int) (clock : Nat → Int)
    (upstream : Upstream) (st : State) (cached : List EnrichedEvent)
    (hcfg : cfg.configured = true) (hcache : st.cachedEvents = some cached)
    (hfresh : now - st.cachedAt < 15000) :
    fetchDiscordEvents rt cfg now clock false upstream st =
      { result := .ok cached, state := st, upstreamCalls := 0 } := by
  simp [fetchDiscordEvents, hcfg, hcache, hfresh, CACHE_TTL_MS]

/-- With credentials, a call with the bypass flag, or on an empty cache, or on a
cache as old as the freshness window or older, goes to `fetch`. -/
theorem fetch_miss (rt : Runtime) (cfg : Config) (now : Int) (clock : Nat → Int)
    (ignoreCache : Bool) (upstream : Upstream) (st : State) (hcfg : cfg.configured = true)
    (hmiss : ignoreCache = true ∨ st.cachedEvents = none ∨ ¬ now - st.cachedAt < 15000) :
    fetchDiscordEvents rt cfg now clock ignoreCache upstream st =
      callUpstream rt cfg now clock upstream st := by
  rcases hmiss with h | h | h <;> simp [fetchDiscordEvents, hcfg, h, CACHE_TTL_MS]

/-- The three ways a call with credentials misses the cache, from the negation of
the hit condition. -/
theorem miss_of_not_hit (now : Int) (ignoreCache : Bool) (st : State)
    (h : ¬ (ignoreCache = false ∧ (∃ cached, st.cachedEvents = some cached) ∧
      now - st.cachedAt < 15000)) :
    ignoreCache = true ∨ st.cachedEvents = none ∨ ¬ now - st.cachedAt < 15000 := by
  cases ignoreCache
  · cases hc : st.cachedEvents with
    | none => exact Or.inr (Or.inl rfl)
    | some cached =>
      refine Or.inr (Or.inr fun hfresh => h ⟨rfl, ⟨cached, hc⟩, hfresh⟩)
  · exact Or.inl rfl

/-- C7: with credentials, the cached sequence is returned with no upstream call
exactly when the bypass flag is off, a cached sequence exists and
`now - cachedAt < 15000`; in every other case, and so whenever the bypass flag is
on, exactly one upstream call is made. -/
theorem fetch_served_from_cache_iff (rt : Runtime) (cfg : Config) (now : Int)
    (clock : Nat → Int) (ignoreCache : Bool) (upstream : Upstream) (st : State)
    (hcfg : cfg.configured = true) :
    (((fetchDiscordEvents rt cfg now clock ignoreCache upstream st).upstreamCalls = 0 ∧
        ∃ cached, st.cachedEvents = some cached ∧
          (fetchDiscordEvents rt cfg now clock ignoreCache upstream st).result = .ok cached) ↔
      (ignoreCache = false ∧ (∃ cached, st.cachedEvents = some cached) ∧
        now - st.cachedAt < 15000)) ∧
    (¬ (ignoreCache = false ∧ (∃ cached, st.cachedEvents = some cached) ∧
        now - st.cachedAt < 15000) →
      (fetchDiscordEvents rt cfg now clock ignoreCache upstream st).upstreamCalls = 1) ∧
    (ignoreCache = true →
      (fetchDiscordEvents rt cfg now clock ignoreCache upstream st).upstreamCalls = 1) := by
  have hmiss : ¬ (ignoreCache = false ∧ (∃ cached, st.cachedEvents = some cached) ∧
        now - st.cachedAt < 15000) →
      (fetchDiscordEvents rt cfg now clock ignoreCache upstream st).upstreamCalls = 1 := by
    intro h
    rw [fetch_miss rt cfg now clock ignoreCache upstream st hcfg (miss_of_not_hit now ignoreCache st h)]
    exact callUpstream_calls rt cfg now clock upstream st
  refine ⟨⟨fun h => ?_, fun h => ?_⟩, hmiss, fun h => hmiss (by simp [h])⟩
  · by_contra hn
    have h1 := hmiss hn
    omega
  · obtain ⟨hi, ⟨cached, hc⟩, hfresh⟩ := h
    subst hi
    rw [fetch_hit rt cfg now clock upstream st cached hcfg hc hfresh]
    exact ⟨rfl, cached, hc, rfl⟩

/-- C7 on a cache filled at time 0 with the empty sequence: a plain read at time
14999 is served from the cache, a forced read at the same time calls upstream. -/
theorem fetch_served_from_cache_iff_witness :
    (fetchDiscordEvents asciiRuntime ⟨some "1".toList, some "t".toList⟩ 14999 (fun _ => 0)
      false .failed ⟨some [], 0, []⟩).upstreamCalls = 0 ∧
    (fetchDiscordEvents asciiRuntime ⟨some "1".toList, some "t".toList⟩ 14999 (fun _ => 0)
      true .failed ⟨some [], 0, []⟩).upstreamCalls = 1 :=
  ⟨((fetch_served_from_cache_iff asciiRuntime ⟨some "1".toList, some "t".toList⟩ 14999
      (fun _ => 0) false .failed ⟨some [], 0, []⟩ (by decide)).1.mpr
      ⟨rfl, ⟨[], rfl⟩, by decide⟩).1,
   (fetch_served_from_cache_iff asciiRuntime ⟨some "1".toList, some "t".toList⟩ 14999
      (fun _ => 0) true .failed ⟨some [], 0, []⟩ (by decide)).2.2 rfl⟩

/-- A success status is not the rate-limit status. -/
theorem statusOk_ne_429 (status : Nat) (hok : statusOk status = true) : status ≠ 429 := by
  simp [statusOk] at hok
  omega

/-- C8: with credentials, a call that goes upstream at time `t` and gets a success
response stores the new sequence with timestamp `t` and returns it; as long as
that cache entry stands, every later call without the bypass flag at a time `t2`
with `t2 - t < 15000` returns that same sequence, makes no upstream call and
leaves the state as it is, so that the two reads make one upstream call in
total. -/
theorem fetch_then_read_within_window (rt : Runtime) (cfg : Config) (t : Int)
    (clock : Nat → Int) (ignoreCache : Bool) (status : Nat) (events : List RawEvent)
    (st : State) (hcfg : cfg.configured = true) (hok : statusOk status = true)
    (hcall : (fetchDiscordEvents rt cfg t clock ignoreCache
      (.response status (some events)) st).upstreamCalls = 1) :
    ∃ mapped,
      (fetchDiscordEvents rt cfg t clock ignoreCache
        (.response status (some events)) st).result = .ok mapped ∧
      (fetchDiscordEvents rt cfg t clock ignoreCache
        (.response status (some events)) st).state.cachedEvents = some mapped ∧
      (fetchDiscordEvents rt cfg t clock ignoreCache
        (.response status (some events)) st).state.cachedAt = t ∧
      ∀ (t2 : Int) (clock2 : Nat → Int) (upstream2 : Upstream) (st2 : State),
        st2.cachedEvents = some mapped → st2.cachedAt = t → t2 - t < 15000 →
        (fetchDiscordEvents rt cfg t2 clock2 false upstream2 st2).result = .ok mapped ∧
        (fetchDiscordEvents rt cfg t2 clock2 false upstream2 st2).upstreamCalls = 0 ∧
        (fetchDiscordEvents rt cfg t2 clock2 false upstream2 st2).state = st2 ∧
        (fetchDiscordEvents rt cfg t clock ignoreCache
            (.response status (some events)) st).upstreamCalls +
          (fetchDiscordEvents rt cfg t2 clock2 false upstream2 st2).upstreamCalls = 1 := by
  have hmiss : ignoreCache = true ∨ st.cachedEvents = none ∨ ¬ t - st.cachedAt < 15000 := by
    apply miss_of_not_hit
    rintro ⟨hi, ⟨cached, hc⟩, hfresh⟩
    subst hi
    rw [fetch_hit rt cfg t clock _ st cached hcfg hc hfresh] at hcall
    simp at hcall
  have h1 : fetchDiscordEvents rt cfg t clock ignoreCache (.response status (some events)) st =
      { result := .ok (mapEvents (enrich rt (orEmpty cfg.guildId)) clock 0 st.interests events).1,
        state :=
          { cachedEvents :=
              some (mapEvents (enrich rt (orEmpty cfg.guildId)) clock 0 st.interests events).1,
            cachedAt := t,
            interests :=
              (mapEvents (enrich rt (orEmpty cfg.guildId)) clock 0 st.interests events).2 },
        upstreamCalls := 1 } := by
    rw [fetch_miss rt cfg t clock ignoreCache _ st hcfg hmiss]
    simp [callUpstream, statusOk_ne_429 status hok, hok]
  rw [h1]
  refine ⟨_, rfl, rfl, rfl, fun t2 clock2 upstream2 st2 hc2 hat2 hwin => ?_⟩
  rw [fetch_hit rt cfg t2 clock2 upstream2 st2 _ hcfg hc2 (by rw [hat2]; exact hwin)]
  exact ⟨rfl, rfl, rfl, rfl⟩

/-- C8 from the initial state: a first read at time 1000 that gets the empty
event list, then a read at time 15999, make one upstream call in total. -/
theorem fetch_then_read_within_window_witness :
    ∃ mapped,
      (fetchDiscordEvents asciiRuntime ⟨some "1".toList, some "t".toList⟩ 1000 (fun _ => 0)
        false (.response 200 (some [])) State.initial).result = .ok mapped ∧
      (fetchDiscordEvents asciiRuntime ⟨some "1".toList, some "t".toList⟩ 15999 (fun _ => 0)
        false .failed
        (fetchDiscordEvents asciiRuntime ⟨some "1".toList, some "t".toList⟩ 1000 (fun _ => 0)
          false (.response 200 (some [])) State.initial).state).result = .ok mapped ∧
      (fetchDiscordEvents asciiRuntime ⟨some "1".toList, some "t".toList⟩ 1000 (fun _ => 0)
          false (.response 200 (some [])) State.initial).upstreamCalls +
        (fetchDiscordEvents asciiRuntime ⟨some "1".toList, some "t".toList⟩ 15999 (fun _ => 0)
          false .failed
          (fetchDiscordEvents asciiRuntime ⟨some "1".toList, some "t".toList⟩ 1000 (fun _ => 0)
            false (.response 200 (some [])) State.initial).state).upstreamCalls = 1 := by
  obtain ⟨mapped, h1, h2, h3, h4⟩ :=
    fetch_then_read_within_window asciiRuntime ⟨some "1".toList, some "t".toList⟩ 1000
      (fun _ => 0) false 200 [] State.initial (by decide) (by decide) (by decide)
  exact ⟨mapped, h1, (h4 15999 (fun _ => 0) .failed _ h2 h3 (by decide)).1,
    (h4 15999 (fun _ => 0) .failed _ h2 h3 (by decide)).2.2.2⟩

/-- C9: with credentials and a cached sequence of any age, a call whose upstream
response has status 429 returns the cached sequence and leaves the state, cached
sequence and timestamp included, as it was; when the bypass flag is on or the
cache is not fresh the upstream call is really made. -/
theorem fetch_rate_limited_fallback (rt : Runtime) (cfg : Config) (now : Int)
    (clock : Nat → Int) (ignoreCache : Bool) (body : Option (List RawEvent)) (st : State)
    (cached : List EnrichedEvent) (hcfg : cfg.configured = true)
    (hcache : st.cachedEvents = some cached) :
    (fetchDiscordEvents rt cfg now clock ignoreCache (.response 429 body) st).result
      = .ok cached ∧
    (fetchDiscordEvents rt cfg now clock ignoreCache (.response 429 body) st).state = st ∧
    (ignoreCache = true ∨ ¬ now - st.cachedAt < 15000 →
      (fetchDiscordEvents rt cfg now clock ignoreCache (.response 429 body) st).upstreamCalls
        = 1) := by
  have hup : callUpstream rt cfg now clock (.response 429 body) st =
      { result := .ok cached, state := st, upstreamCalls := 1 } := by
    simp [callUpstream, hcache]
  by_cases hhit : ignoreCache = false ∧ (∃ c, st.cachedEvents = some c) ∧
      now - st.cachedAt < 15000
  · obtain ⟨hi, _, hfresh⟩ := hhit
    subst hi
    rw [fetch_hit rt cfg now clock _ st cached hcfg hcache hfresh]
    exact ⟨rfl, rfl, fun h => by simp [hfresh] at h⟩
  · rw [fetch_miss rt cfg now clock ignoreCache _ st hcfg (miss_of_not_hit now ignoreCache st hhit),
      hup]
    exact ⟨rfl, rfl, fun _ => rfl⟩

/-- C9 on a cache filled at time 0 and read at time 100000, long after the
freshness window: the rate-limited call returns the cached sequence. -/
theorem fetch_rate_limited_fallback_witness :
    (fetchDiscordEvents asciiRuntime ⟨some "1".toList, some "t".toList⟩ 100000 (fun _ => 0)
      false (.response 429 none) ⟨some [], 0, []⟩).result = .ok [] ∧
    (fetchDiscordEvents asciiRuntime ⟨some "1".toList, some "t".toList⟩ 100000 (fun _ => 0)
      false (.response 429 none) ⟨some [], 0, []⟩).upstreamCalls = 1 :=
  ⟨(fetch_rate_limited_fallback asciiRuntime ⟨some "1".toList, some "t".toList⟩ 100000
      (fun _ => 0) false none ⟨some [], 0, []⟩ [] (by decide) rfl).1,
   (fetch_rate_limited_fallback asciiRuntime ⟨some "1".toList, some "t".toList⟩ 100000
      (fun _ => 0) false none ⟨some [], 0, []⟩ [] (by decide) rfl).2.2 (Or.inr (by decide))⟩

/-- When `callUpstream` ends with an error, and what it then leaves. -/
theorem callUpstream_error_iff (rt : Runtime) (cfg : Config) (now : Int) (clock : Nat → Int)
    (upstream : Upstream) (st : State) :
    ((∃ e, (callUpstream rt cfg now clock upstream st).result = .error e) ↔
      (upstream = .failed ∨
       (∃ body, upstream = .response 429 body ∧ st.cachedEvents = none) ∨
       (∃ status body, upstream = .response status body ∧ status ≠ 429 ∧
          statusOk status = false) ∨
       (∃ status, upstream = .response status none ∧ statusOk status = true))) ∧
    ((∃ e, (callUpstream rt cfg now clock upstream st).result = .error e) →
      (callUpstream rt cfg now clock upstream st).state = st) := by
  cases upstream with
  | failed => simp [callUpstream]
  | response status body =>
    by_cases h429 : status = 429
    · subst h429
      cases hc : st.cachedEvents <;> simp [callUpstream, hc, statusOk]
    · cases hok : statusOk status
      · simp [callUpstream, h429, hok]
      · cases body <;> simp [callUpstream, h429, hok]

/-- C10, as stated, fails: with credentials and an empty cache, a call whose
`fetch` is rejected ends with an error although upstream answered with no status
at all, neither 429 nor another non-success one. -/
theorem fetch_error_counterexample :
    (fetchDiscordEvents asciiRuntime ⟨some "1".toList, some "t".toList⟩ 0 (fun _ => 0) false
      .failed State.initial).result = .error .transport ∧
    (fetchDiscordEvents asciiRuntime ⟨some "1".toList, some "t".toList⟩ 0 (fun _ => 0) false
      .failed State.initial).upstreamCalls = 1 ∧
    ¬ ((∃ body, Upstream.failed = .response 429 body ∧ State.initial.cachedEvents = none) ∨
       (∃ status body, Upstream.failed = .response status body ∧ status ≠ 429 ∧
          statusOk status = false)) := by
  refine ⟨rfl, by decide, ?_⟩
  rintro (⟨_, h, _⟩ | ⟨_, _, h, _⟩) <;> cases h

/-- C10, amended: with credentials, a call ends with an error exactly when it made
an upstream call and either `fetch` was rejected, or the response had status 429
and no cached sequence exists, or it had a non-success status other than 429, or
it had a success status and a body that is not an array of events. A call that
ends with an error leaves the state as it was, and a call that changes the cached
sequence or its timestamp got a success response: it returns the sequence mapped
from it and stores that sequence with the timestamp `now`. -/
theorem fetch_error_iff (rt : Runtime) (cfg : Config) (now : Int) (clock : Nat → Int)
    (ignoreCache : Bool) (upstream : Upstream) (st : State) (hcfg : cfg.configured = true) :
    ((∃ e, (fetchDiscordEvents rt cfg now clock ignoreCache upstream st).result = .error e) ↔
      ((fetchDiscordEvents rt cfg now clock ignoreCache upstream st).upstreamCalls = 1 ∧
       (upstream = .failed ∨
        (∃ body, upstream = .response 429 body ∧ st.cachedEvents = none) ∨
        (∃ status body, upstream = .response status body ∧ status ≠ 429 ∧
          statusOk status = false) ∨
        (∃ status, upstream = .response status none ∧ statusOk status = true)))) ∧
    ((∃ e, (fetchDiscordEvents rt cfg now clock ignoreCache upstream st).result = .error e) →
      (fetchDiscordEvents rt cfg now clock ignoreCache upstream st).state = st) ∧
    (((fetchDiscordEvents rt cfg now clock ignoreCache upstream st).state.cachedEvents
          ≠ st.cachedEvents ∨
        (fetchDiscordEvents rt cfg now clock ignoreCache upstream st).state.cachedAt
          ≠ st.cachedAt) →
      ∃ status events, upstream = .response status (some events) ∧ statusOk status = true ∧
        (fetchDiscordEvents rt cfg now clock ignoreCache upstream st).upstreamCalls = 1 ∧
        (fetchDiscordEvents rt cfg now clock ignoreCache upstream st).result =
          .ok (mapEvents (enrich rt (orEmpty cfg.guildId)) clock 0 st.interests events).1 ∧
        (fetchDiscordEvents rt cfg now clock ignoreCache upstream st).state.cachedEvents =
          some (mapEvents (enrich rt (orEmpty cfg.guildId)) clock 0 st.interests events).1 ∧
        (fetchDiscordEvents rt cfg now clock ignoreCache upstream st).state.cachedAt = now) := by
  by_cases hhit : ignoreCache = false ∧ (∃ c, st.cachedEvents = some c) ∧
      now - st.cachedAt < 15000
  · obtain ⟨hi, ⟨cached, hc⟩, hfresh⟩ := hhit
    subst hi
    rw [fetch_hit rt cfg now clock upstream st cached hcfg hc hfresh]
    simp
  · rw [fetch_miss rt cfg now clock ignoreCache upstream st hcfg
      (miss_of_not_hit now ignoreCache st hhit)]
    have herr := callUpstream_error_iff rt cfg now clock upstream st
    refine ⟨?_, herr.2, ?_⟩
    · rw [herr.1]
      simp [callUpstream_calls]
    · intro hchange
      cases upstream with
      | failed => simp [callUpstream] at hchange
      | response status body =>
        by_cases h429 : status = 429
        · subst h429
          cases hc : st.cachedEvents <;> simp [callUpstream, hc] at hchange
        · cases hok : statusOk status
          · simp [callUpstream, h429, hok] at hchange
          · cases body with
            | none => simp [callUpstream, h429, hok] at hchange
            | some events =>
              exact ⟨status, events, rfl, hok, by simp [callUpstream, h429, hok]⟩

/-- C10, amended, at the initial state: a response with status 500 ends the call
with an error and leaves the state as it was. -/
theorem fetch_error_iff_witness :
    (∃ e, (fetchDiscordEvents asciiRuntime ⟨some "1".toList, some "t".toList⟩ 0 (fun _ => 0)
      false (.response 500 none) State.initial).result = .error e) ∧
    (fetchDiscordEvents asciiRuntime ⟨some "1".toList, some "t".toList⟩ 0 (fun _ => 0)
      false (.response 500 none) State.initial).state = State.initial :=
  have h := fetch_error_iff asciiRuntime ⟨some "1".toList, some "t".toList⟩ 0 (fun _ => 0)
    false (.response 500 none) State.initial (by decide)
  have herr := h.1.mpr ⟨by decide, Or.inr (Or.inr (Or.inl ⟨500, none, rfl, by decide, by decide⟩))⟩
  ⟨herr, h.2.1 herr⟩

/-- The number of positions given to the global loop does not matter once it
covers the text, for a pattern whose matches consume at least one character. -/
theorem scanAllFuel_of_le (matchAt : JSString → Option (JSString × JSString))
    (hm : ∀ s x rest, matchAt s = some (x, rest) → rest.length < s.length) :
    ∀ (n k : Nat) (s : JSString), s.length ≤ n → s.length ≤ k →
      scanAllFuel matchAt n s = scanAllFuel matchAt k s := by
  intro n
  induction n with
  | zero =>
    intro k s hn _
    have hs : s = [] := List.length_eq_zero.mp (Nat.le_zero.mp hn)
    subst hs
    cases k <;> rfl
  | succ n ih =>
    intro k s hn hk
    cases s with
    | nil => cases k <;> rfl
    | cons c cs =>
      cases k with
      | zero => simp at hk
      | succ k =>
        simp only [scanAllFuel]
        cases hmatch : matchAt (c :: cs) with
        | none =>
          simp only [List.length_cons] at hn hk
          exact ih k cs (by omega) (by omega)
        | some r =>
          obtain ⟨x, rest⟩ := r
          have hlt := hm _ _ _ hmatch
          simp only [List.length_cons] at hn hk hlt
          simp only [ih k rest (by omega) (by omega)]

/-- The global loop on the empty text. -/
theorem scanAll_nil (matchAt : JSString → Option (JSString × JSString)) :
    scanAll matchAt [] = [] := rfl

/-- One step of the global loop: a match is recorded and the loop resumes after
it, a failure moves one character on. -/
theorem scanAll_cons (matchAt : JSString → Option (JSString × JSString))
    (hm : ∀ s x rest, matchAt s = some (x, rest) → rest.length < s.length)
    (c : Char) (cs : JSString) :
    scanAll matchAt (c :: cs) =
      match matchAt (c :: cs) with
      | some (x, rest) => x :: scanAll matchAt rest
      | none => scanAll matchAt cs := by
  unfold scanAll
  simp only [List.length_cons, scanAllFuel]
  cases hmatch : matchAt (c :: cs) with
  | none => rfl
  | some r =>
    obtain ⟨x, rest⟩ := r
    have hlt := hm _ _ _ hmatch
    simp only [List.length_cons] at hlt
    simp only [scanAllFuel_of_le matchAt hm cs.length rest.length rest (by omega) (le_refl _)]

/-- A match of the tag pattern consumes at least the `#`. -/
theorem matchTagAt_consumes (s x rest : JSString) (h : matchTagAt s = some (x, rest)) :
    rest.length < s.length := by
  unfold matchTagAt at h
  split at h
  · split at h
    · cases h
    · cases h
      rename_i tl _
      have := (List.dropWhile_sublist isWordChar (l := tl)).length_le
      simp only [List.length_cons]
      omega
  · cases h

/-- The tag pattern matches where a hashtag token starts, and captures the token. -/
theorem matchTagAt_eq (s : JSString) :
    matchTagAt s = (hashtagAt s).map (fun w => (w, s.tail.dropWhile isWordChar)) := by
  unfold matchTagAt hashtagAt
  split
  · split <;> simp_all
  · rfl

/-- The hashtag tokens of a text from its first character on. -/
theorem hashtagTokens_cons (c : Char) (cs : JSString) :
    hashtagTokens (c :: cs) = (hashtagAt (c :: cs)).toList ++ hashtagTokens cs := by
  unfold hashtagTokens
  rw [List.tails_cons, List.filterMap_cons]
  cases hashtagAt (c :: cs) <;> rfl

/-- No hashtag token starts inside a run of word characters. -/
theorem hashtagTokens_dropWhile (cs : JSString) :
    hashtagTokens (cs.dropWhile isWordChar) = hashtagTokens cs := by
  induction cs with
  | nil => rfl
  | cons d ds ih =>
    cases hd : isWordChar d
    · simp [List.dropWhile_cons, hd]
    · rw [List.dropWhile_cons, hd, if_pos rfl, ih, hashtagTokens_cons]
      have hne : hashtagAt (d :: ds) = none := by
        unfold hashtagAt
        split
        · rename_i heq
          cases heq
          exact absurd hd (by decide)
        · rfl
      rw [hne]
      rfl

/-- The matches of the tag pattern in a text of length at most `n`. -/
theorem scanAll_matchTagAt_of_le (n : Nat) :
    ∀ s : JSString, s.length ≤ n → scanAll matchTagAt s = hashtagTokens s := by
  induction n with
  | zero =>
    intro s hs
    have h : s = [] := List.length_eq_zero.mp (Nat.le_zero.mp hs)
    subst h
    rfl
  | succ n ih =>
    intro s hs
    cases s with
    | nil => rfl
    | cons c cs =>
      simp only [List.length_cons] at hs
      rw [scanAll_cons matchTagAt matchTagAt_consumes, hashtagTokens_cons, matchTagAt_eq]
      cases hat : hashtagAt (c :: cs) with
      | none =>
        simp only [Option.map_none', Option.toList_none, List.nil_append]
        exact ih cs (by omega)
      | some w =>
        have hle := (List.dropWhile_sublist isWordChar (l := cs)).length_le
        simp only [Option.map_some', Option.toList_some, List.singleton_append, List.tail_cons]
        rw [ih (cs.dropWhile isWordChar) (by omega), hashtagTokens_dropWhile]

/-- The matches of the tag pattern are the hashtag tokens of the text. -/
theorem scanAll_matchTagAt (s : JSString) : scanAll matchTagAt s = hashtagTokens s :=
  scanAll_matchTagAt_of_le s.length s (le_refl _)

/-- A word character is an ASCII character. -/
theorem isAscii_of_isWordChar (c : Char) (h : isWordChar c = true) : isAscii c = true := by
  simp only [isWordChar, Bool.or_eq_true, Bool.and_eq_true, decide_eq_true_eq, beq_iff_eq] at h
  simp only [isAscii, decide_eq_true_eq]
  omega

/-- On a text of ASCII characters `toUpperCase` is the ASCII mapping, character by
character, whatever the runtime. -/
theorem toUpperCase_ascii (rt : Runtime) (w : JSString) (h : ∀ c ∈ w, isAscii c = true) :
    toUpperCase rt w = w.map asciiUpper := by
  induction w with
  | nil => rfl
  | cons c w ih =>
    have hc := h c (List.mem_cons_self _ _)
    have hw := ih (fun d hd => h d (List.mem_cons_of_mem _ hd))
    unfold toUpperCase at hw ⊢
    simp [List.flatMap_cons, hc, hw]

/-- A hashtag token is made of word characters. -/
theorem isWordChar_of_mem_hashtagTokens (s w : JSString) (hw : w ∈ hashtagTokens s) :
    ∀ c ∈ w, isWordChar c = true := by
  unfold hashtagTokens at hw
  obtain ⟨t, _, ht⟩ := List.mem_filterMap.mp hw
  unfold hashtagAt at ht
  split at ht
  · split at ht
    · cases ht
    · cases ht
      intro c hc
      exact List.mem_takeWhile_imp hc
  · cases ht

/-- The tags of a description are the tags the specification describes. -/
theorem tags_eq_specTags (rt : Runtime) (description : JSString) :
    (extractLinksTags rt (some description)).tags = specTags description := by
  cases description with
  | nil => rfl
  | cons c cs =>
    simp only [extractLinksTags, specTags, scanAll_matchTagAt]
    congr 1
    apply List.map_congr_left
    intro w hw
    exact toUpperCase_ascii rt w
      (fun d hd => isAscii_of_isWordChar d (isWordChar_of_mem_hashtagTokens _ w hw d hd))

/-- C4: the tags of a description are its hashtag tokens (`#` followed by one or
more word characters), each uppercased, in order of appearance, without those
equal to `IRL`, `VR`, `VIRTUAL` or `RADIO` and with nothing else removed; no tag
is a reserved marker, `#IRL #DNB` gives `DNB`, and `#DNB #dnb` gives `DNB` twice. -/
theorem extractLinksTags_tags (rt : Runtime) (description : JSString) :
    (extractLinksTags rt (some description)).tags =
      ((hashtagTokens description).map (fun w => w.map asciiUpper)).filter
        (fun t => !(reservedTags.contains t)) ∧
    (∀ t ∈ (extractLinksTags rt (some description)).tags, t ∉ reservedTags) ∧
    (extractLinksTags rt (some "#IRL #DNB".toList)).tags = ["DNB".toList] ∧
    (extractLinksTags rt (some "#DNB #dnb".toList)).tags = ["DNB".toList, "DNB".toList] := by
  refine ⟨tags_eq_specTags rt description, ?_, ?_, ?_⟩
  · intro t ht
    rw [tags_eq_specTags] at ht
    have h := (List.mem_filter.mp ht).2
    simpa using h
  · rw [tags_eq_specTags]
    decide
  · rw [tags_eq_specTags]
    decide

/-- The part `:\/\/[^\s]+` of the URL pattern is the literal `://` and a run. -/
theorem matchUrlTail_eq (s : JSString) :
    matchUrlTail s = literalThenRun [':', '/', '/'] s := by
  unfold matchUrlTail literalThenRun
  split
  · rename_i rest
    cases h : List.takeWhile isNonSpace rest <;> simp [h]
  · rename_i h
    have hp : List.isPrefixOf [':', '/', '/'] s = false := by
      cases hc : List.isPrefixOf [':', '/', '/'] s
      · rfl
      · obtain ⟨t, ht⟩ := List.isPrefixOf_iff_prefix.mp hc
        exact absurd ht.symm (h t)
    simp [hp]

/-- A literal whose first character is the first character of the text. -/
theorem literalThenRun_cons_eq (a : Char) (lit s : JSString) :
    literalThenRun (a :: lit) (a :: s) =
      (literalThenRun lit s).map (fun (r : JSString × JSString) => (a :: r.1, r.2)) := by
  unfold literalThenRun
  simp only [List.isPrefixOf_cons₂, beq_self_eq_true, Bool.true_and, List.length_cons,
    List.drop_succ_cons, List.cons_append]
  split <;> rfl

/-- A literal whose first character is not the first character of the text. -/
theorem literalThenRun_cons_ne (a b : Char) (lit s : JSString) (h : a ≠ b) :
    literalThenRun (a :: lit) (b :: s) = none := by
  unfold literalThenRun
  simp [List.isPrefixOf_cons₂, h]

/-- A non-empty literal does not match the empty text. -/
theorem literalThenRun_cons_nil (a : Char) (lit : JSString) :
    literalThenRun (a :: lit) [] = none := by
  unfold literalThenRun
  simp [List.isPrefixOf]

/-- The URL pattern matches `https://` and a run, or else `http://` and a run. -/
theorem matchUrlAt_eq (s : JSString) :
    matchUrlAt s =
      (literalThenRun ['h', 't', 't', 'p', 's', ':', '/', '/'] s).orElse
        (fun _ => literalThenRun ['h', 't', 't', 'p', ':', '/', '/'] s) := by
  unfold matchUrlAt
  split
  · rename_i rest
    simp only [literalThenRun_cons_eq, ← matchUrlTail_eq]
    cases rest with
    | nil => simp [literalThenRun_cons_nil, matchUrlTail]
    | cons d rest2 =>
      by_cases hd : d = 's'
      · subst hd
        simp only [literalThenRun_cons_eq, ← matchUrlTail_eq]
        cases h1 : matchUrlTail rest2 with
        | none => cases matchUrlTail ('s' :: rest2) <;> rfl
        | some r => rfl
      · have hd2 : 's' ≠ d := fun h => hd h.symm
        simp only [literalThenRun_cons_ne _ _ _ _ hd2]
        simp only [Option.map_none', Option.orElse_none, Option.map_map]
        split
        · rename_i r heq
          split at heq
          · rename_i heq2
            cases heq2
            exact absurd rfl hd
          · cases heq
        · rfl
  · rename_i h
    have h1 : literalThenRun ['h', 't', 't', 'p', 's', ':', '/', '/'] s = none := by
      unfold literalThenRun
      cases hc : List.isPrefixOf ['h', 't', 't', 'p', 's', ':', '/', '/'] s
      · rfl
      · obtain ⟨t, ht⟩ := List.isPrefixOf_iff_prefix.mp hc
        exact absurd ht.symm (h _)
    have h2 : literalThenRun ['h', 't', 't', 'p', ':', '/', '/'] s = none := by
      unfold literalThenRun
      cases hc : List.isPrefixOf ['h', 't', 't', 'p', ':', '/', '/'] s
      · rfl
      · obtain ⟨t, ht⟩ := List.isPrefixOf_iff_prefix.mp hc
        exact absurd ht.symm (h _)
    rw [h1, h2]
    rfl
/-- A whitespace-free run followed by nothing or by a white space character is
what `[^\s]*` takes, and the rest is what it leaves. -/
theorem takeWhile_dropWhile_run (r rest : JSString) (hr : ∀ c ∈ r, isNonSpace c = true)
    (hb : ∀ c ∈ rest.head?, isNonSpace c = false) :
    (r ++ rest).takeWhile isNonSpace = r ∧ (r ++ rest).dropWhile isNonSpace = rest := by
  induction r with
  | nil =>
    cases rest with
    | nil => exact ⟨rfl, rfl⟩
    | cons c cs =>
      have hc := hb c (by simp)
      simp [List.takeWhile_cons, List.dropWhile_cons, hc]
  | cons c r ih =>
    have hc := hr c (List.mem_cons_self _ _)
    have h := ih (fun d hd => hr d (List.mem_cons_of_mem _ hd))
    simp [List.takeWhile_cons, List.dropWhile_cons, hc, h.1, h.2]

/-- A whitespace-free literal is found at the head of a run followed by white
space only when it is found at the head of the run. -/
theorem isPrefixOf_run (lit r rest : JSString) (hl : ∀ c ∈ lit, isNonSpace c = true)
    (hb : ∀ c ∈ rest.head?, isNonSpace c = false) :
    lit.isPrefixOf (r ++ rest) = lit.isPrefixOf r := by
  induction lit generalizing r with
  | nil => simp [List.isPrefixOf]
  | cons a lit ih =>
    have ha := hl a (List.mem_cons_self _ _)
    cases r with
    | nil =>
      cases rest with
      | nil => rfl
      | cons b bs =>
        have hb2 := hb b (by simp)
        have hne : a ≠ b := by
          rintro rfl
          rw [ha] at hb2
          cases hb2
        simp [List.isPrefixOf, hne]
    | cons b r =>
      simp only [List.cons_append, List.isPrefixOf_cons₂]
      rw [ih r (fun d hd => hl d (List.mem_cons_of_mem _ hd))]

/-- On a run followed by nothing or by white space, a literal followed by `[^\s]+`
matches when the run begins with the literal and is longer, and then matches
the whole run. -/
theorem literalThenRun_run (lit r rest : JSString) (hl : ∀ c ∈ lit, isNonSpace c = true)
    (hr : ∀ c ∈ r, isNonSpace c = true) (hb : ∀ c ∈ rest.head?, isNonSpace c = false) :
    literalThenRun lit (r ++ rest) =
      if lit.isPrefixOf r && decide (lit.length < r.length) then some (r, rest) else none := by
  unfold literalThenRun
  rw [isPrefixOf_run lit r rest hl hb]
  cases hp : lit.isPrefixOf r
  · simp
  · obtain ⟨u, rfl⟩ := List.isPrefixOf_iff_prefix.mp hp
    have hu : ∀ c ∈ u, isNonSpace c = true := fun c hc => hr c (List.mem_append_right _ hc)
    have h := takeWhile_dropWhile_run u rest hu hb
    simp only [List.append_assoc, List.drop_left, h.1, h.2, Bool.true_and, List.length_append]
    cases u with
    | nil => simp
    | cons c u => simp

/-- On a run followed by nothing or by white space, the URL pattern matches when
the run begins a URL, and then matches the whole run. -/
theorem matchUrlAt_run (r rest : JSString) (hr : ∀ c ∈ r, isNonSpace c = true)
    (hb : ∀ c ∈ rest.head?, isNonSpace c = false) :
    matchUrlAt (r ++ rest) = if beginsUrl r then some (r, rest) else none := by
  have h8 : ∀ c ∈ ['h', 't', 't', 'p', 's', ':', '/', '/'], isNonSpace c = true := by decide
  have h7 : ∀ c ∈ ['h', 't', 't', 'p', ':', '/', '/'], isNonSpace c = true := by decide
  rw [matchUrlAt_eq, literalThenRun_run _ r rest h8 hr hb, literalThenRun_run _ r rest h7 hr hb]
  have e7 : "http://".toList = ['h', 't', 't', 'p', ':', '/', '/'] := rfl
  have e8 : "https://".toList = ['h', 't', 't', 'p', 's', ':', '/', '/'] := rfl
  unfold beginsUrl
  rw [e7, e8]
  simp only [List.length_cons, List.length_nil]
  cases List.isPrefixOf ['h', 't', 't', 'p', 's', ':', '/', '/'] r <;>
    cases List.isPrefixOf ['h', 't', 't', 'p', ':', '/', '/'] r <;>
    by_cases h7l : 7 < r.length <;> by_cases h8l : 8 < r.length <;>
    simp [h7l, h8l]

/-- A match of the URL pattern consumes at least one character. -/
theorem matchUrlAt_consumes (s x rest : JSString) (h : matchUrlAt s = some (x, rest)) :
    rest.length < s.length := by
  have hlit : ∀ (lit : JSString), 0 < lit.length →
      literalThenRun lit s = some (x, rest) → rest.length < s.length := by
    intro lit hpos hm
    unfold literalThenRun at hm
    split at hm
    · rename_i hc
      simp only [Bool.and_eq_true] at hc
      obtain ⟨u, rfl⟩ := List.isPrefixOf_iff_prefix.mp hc.1
      cases hm
      have hle := (List.dropWhile_sublist isNonSpace (l := u)).length_le
      simp only [List.drop_left, List.length_append]
      omega
    · cases hm
  rw [matchUrlAt_eq] at h
  cases h8 : literalThenRun ['h', 't', 't', 'p', 's', ':', '/', '/'] s with
  | some r8 =>
    rw [h8] at h
    simp only [Option.orElse] at h
    rw [h] at h8
    exact hlit _ (by simp) h8
  | none =>
    rw [h8] at h
    simp only [Option.orElse] at h
    exact hlit _ (by simp) h

/-- The URL of a run from its first character on. -/
theorem urlOfRun_cons (c : Char) (r : JSString) :
    urlOfRun (c :: r) = if beginsUrl (c :: r) then some (c :: r) else urlOfRun r := by
  unfold urlOfRun
  rw [List.tails_cons, List.find?_cons]
  cases beginsUrl (c :: r) <;> rfl

/-- The URL of a run is the longest end part of the run that begins a URL: every
end part of the run that begins a URL is an end part of it. -/
theorem urlOfRun_longest (r u : JSString) (hu : urlOfRun r = some u) :
    u <:+ r ∧ beginsUrl u = true ∧ ∀ v, v <:+ r → beginsUrl v = true → v <:+ u := by
  induction r with
  | nil => cases hu
  | cons c r ih =>
    rw [urlOfRun_cons] at hu
    cases hbegin : beginsUrl (c :: r)
    · rw [hbegin] at hu
      obtain ⟨h1, h2, h3⟩ := ih hu
      refine ⟨h1.trans (List.suffix_cons c r), h2, fun v hv hbv => ?_⟩
      rcases List.suffix_cons_iff.mp hv with h | h
      · subst h
        rw [hbegin] at hbv
        cases hbv
      · exact h3 v h hbv
    · rw [hbegin] at hu
      cases hu
      exact ⟨List.suffix_refl _, hbegin, fun v hv _ => hv⟩

/-- A run has no URL only when no end part of it begins a URL. -/
theorem urlOfRun_eq_none (r : JSString) (hr : urlOfRun r = none) :
    ∀ v, v <:+ r → beginsUrl v = false := by
  intro v hv
  unfold urlOfRun at hr
  have h := List.find?_eq_none.mp hr v ((List.mem_tails _ _).mpr hv)
  simpa using h

/-- The matches of the URL pattern in a run followed by nothing or by white
space: the URL of the run, then the matches in what follows. -/
theorem scanAll_matchUrlAt_run (r rest : JSString) (hr : ∀ c ∈ r, isNonSpace c = true)
    (hb : ∀ c ∈ rest.head?, isNonSpace c = false) :
    scanAll matchUrlAt (r ++ rest) = (urlOfRun r).toList ++ scanAll matchUrlAt rest := by
  induction r with
  | nil => rfl
  | cons c r ih =>
    have hr2 : ∀ d ∈ r, isNonSpace d = true := fun d hd => hr d (List.mem_cons_of_mem _ hd)
    rw [List.cons_append, scanAll_cons matchUrlAt matchUrlAt_consumes, ← List.cons_append,
      matchUrlAt_run (c :: r) rest hr hb, urlOfRun_cons]
    cases hbegin : beginsUrl (c :: r)
    · simpa using ih hr2
    · simp

/-- The URL substrings of a text that starts with a white space character. -/
theorem urlSubstrings_cons_space (c : Char) (cs : JSString) (hc : isWhiteSpace c = true) :
    urlSubstrings (c :: cs) = urlSubstrings cs := by
  unfold urlSubstrings whitespaceFreeRuns
  rw [List.splitOnP_cons, if_pos hc]
  rfl

/-- The URL substrings of a run followed by nothing or by white space: the URL of
the run, then the URL substrings of what follows. -/
theorem urlSubstrings_run (r rest : JSString) (hr : ∀ c ∈ r, isNonSpace c = true)
    (hb : ∀ c ∈ rest.head?, isNonSpace c = false) :
    urlSubstrings (r ++ rest) = (urlOfRun r).toList ++ urlSubstrings rest := by
  have hr2 : ∀ c ∈ r, ¬ isWhiteSpace c = true := by
    intro c hc
    have := hr c hc
    simpa [isNonSpace] using this
  have hrun : (List.filter (fun r => !r.isEmpty) [r]).filterMap urlOfRun = (urlOfRun r).toList := by
    cases r with
    | nil => rfl
    | cons c r => cases h : urlOfRun (c :: r) <;> simp [h]
  cases rest with
  | nil =>
    rw [List.append_nil]
    unfold urlSubstrings whitespaceFreeRuns
    rw [List.splitOnP_eq_single _ _ hr2, hrun]
    simp [List.splitOnP_nil]
  | cons sep rest =>
    have hsep : isWhiteSpace sep = true := by
      have := hb sep (by simp)
      simpa [isNonSpace] using this
    rw [urlSubstrings_cons_space sep rest hsep]
    unfold urlSubstrings whitespaceFreeRuns
    rw [List.splitOnP_first _ _ hr2 sep hsep]
    have hsplit : List.filter (fun r => !r.isEmpty) (r :: List.splitOnP isWhiteSpace rest) =
        List.filter (fun r => !r.isEmpty) [r] ++
          List.filter (fun r => !r.isEmpty) (List.splitOnP isWhiteSpace rest) := by
      rw [← List.filter_append]
      rfl
    rw [hsplit, List.filterMap_append, hrun]

/-- What `[^\s]*` leaves starts with a white space character, if it is not empty. -/
theorem head_dropWhile_isNonSpace (s : JSString) :
    ∀ c ∈ (s.dropWhile isNonSpace).head?, isNonSpace c = false := by
  induction s with
  | nil => simp
  | cons d s ih =>
    cases hd : isNonSpace d
    · simp [List.dropWhile_cons, hd]
    · simpa [List.dropWhile_cons, hd] using ih

/-- The matches of the URL pattern in a text of length at most `n`. -/
theorem scanAll_matchUrlAt_of_le (n : Nat) :
    ∀ s : JSString, s.length ≤ n → scanAll matchUrlAt s = urlSubstrings s := by
  induction n with
  | zero =>
    intro s hs
    have h : s = [] := List.length_eq_zero.mp (Nat.le_zero.mp hs)
    subst h
    rfl
  | succ n ih =>
    intro s hs
    cases s with
    | nil => rfl
    | cons c cs =>
      simp only [List.length_cons] at hs
      cases hc : isWhiteSpace c
      · have hns : isNonSpace c = true := by simp [isNonSpace, hc]
        have hsplit := List.takeWhile_append_dropWhile isNonSpace (c :: cs)
        have hr : ∀ d ∈ (c :: cs).takeWhile isNonSpace, isNonSpace d = true :=
          fun d hd => List.mem_takeWhile_imp hd
        have hb := head_dropWhile_isNonSpace (c :: cs)
        have hlen : ((c :: cs).dropWhile isNonSpace).length ≤ n := by
          have := (List.dropWhile_sublist isNonSpace (l := cs)).length_le
          simp only [List.dropWhile_cons, hns, if_true]
          omega
        calc scanAll matchUrlAt (c :: cs)
            = scanAll matchUrlAt
                ((c :: cs).takeWhile isNonSpace ++ (c :: cs).dropWhile isNonSpace) := by
              rw [hsplit]
          _ = (urlOfRun ((c :: cs).takeWhile isNonSpace)).toList ++
                scanAll matchUrlAt ((c :: cs).dropWhile isNonSpace) :=
              scanAll_matchUrlAt_run _ _ hr hb
          _ = (urlOfRun ((c :: cs).takeWhile isNonSpace)).toList ++
                urlSubstrings ((c :: cs).dropWhile isNonSpace) := by
              rw [ih _ hlen]
          _ = urlSubstrings
                ((c :: cs).takeWhile isNonSpace ++ (c :: cs).dropWhile isNonSpace) :=
              (urlSubstrings_run _ _ hr hb).symm
          _ = urlSubstrings (c :: cs) := by rw [hsplit]
      · have hb : ∀ d ∈ (c :: cs).head?, isNonSpace d = false := by
          intro d hd
          simp only [List.head?_cons, Option.mem_def, Option.some.injEq] at hd
          subst hd
          simp [isNonSpace, hc]
        have hnone : matchUrlAt (c :: cs) = none := by
          have := matchUrlAt_run [] (c :: cs) (by simp) hb
          simpa [beginsUrl] using this
        rw [scanAll_cons matchUrlAt matchUrlAt_consumes, hnone, urlSubstrings_cons_space c cs hc]
        exact ih cs (by omega)

/-- The matches of the URL pattern are the URL substrings of the text. -/
theorem scanAll_matchUrlAt (s : JSString) : scanAll matchUrlAt s = urlSubstrings s :=
  scanAll_matchUrlAt_of_le s.length s (le_refl _)

/-- No piece between separators holds a separator. -/
theorem not_sep_of_mem_splitOnP (p : Char → Bool) (s : JSString) :
    ∀ run ∈ s.splitOnP p, ∀ c ∈ run, p c = false := by
  induction s with
  | nil => simp [List.splitOnP_nil]
  | cons x xs ih =>
    intro run hrun c hc
    rw [List.splitOnP_cons] at hrun
    by_cases hx : p x = true
    · rw [if_pos hx] at hrun
      rcases List.mem_cons.mp hrun with h | h
      · subst h
        cases hc
      · exact ih run h c hc
    · rw [if_neg hx] at hrun
      cases hsplit : List.splitOnP p xs with
      | nil => exact absurd hsplit (List.splitOnP_ne_nil p xs)
      | cons hd tl =>
        rw [hsplit] at hrun ih
        simp only [List.modifyHead_cons, List.mem_cons] at hrun
        rcases hrun with h | h
        · subst h
          rcases List.mem_cons.mp hc with h2 | h2
          · subst h2
            simpa using hx
          · exact ih hd (List.mem_cons_self _ _) c h2
        · exact ih run (List.mem_cons_of_mem _ h) c hc

/-- The first piece of a split text is a beginning of the text, and every other
piece is a part of it. -/
theorem splitOnP_parts (p : Char → Bool) (s : JSString) :
    ∀ hd tl, s.splitOnP p = hd :: tl → hd <+: s ∧ ∀ run ∈ tl, run <:+: s := by
  induction s with
  | nil =>
    intro hd tl h
    rw [List.splitOnP_nil] at h
    cases h
    exact ⟨List.prefix_refl _, fun run hrun => by cases hrun⟩
  | cons x xs ih =>
    intro hd tl h
    rw [List.splitOnP_cons] at h
    cases hsplit : List.splitOnP p xs with
    | nil => exact absurd hsplit (List.splitOnP_ne_nil p xs)
    | cons hd2 tl2 =>
      obtain ⟨h1, h2⟩ := ih hd2 tl2 hsplit
      rw [hsplit] at h
      by_cases hx : p x = true
      · rw [if_pos hx] at h
        cases h
        refine ⟨List.nil_prefix, fun run hrun => ?_⟩
        rcases List.mem_cons.mp hrun with hr | hr
        · subst hr
          exact (h1.isInfix).trans (List.suffix_cons x xs).isInfix
        · exact (h2 run hr).trans (List.suffix_cons x xs).isInfix
      · rw [if_neg hx] at h
        simp only [List.modifyHead_cons] at h
        cases h
        refine ⟨(List.prefix_cons_inj x).mpr h1, fun run hrun => ?_⟩
        exact (h2 run hrun).trans (List.suffix_cons x xs).isInfix

/-- Every piece of a split text is a part of the text. -/
theorem infix_of_mem_splitOnP (p : Char → Bool) (s run : JSString)
    (hrun : run ∈ s.splitOnP p) : run <:+: s := by
  cases hsplit : List.splitOnP p s with
  | nil => exact absurd hsplit (List.splitOnP_ne_nil p s)
  | cons hd tl =>
    obtain ⟨h1, h2⟩ := splitOnP_parts p s hd tl hsplit
    rw [hsplit] at hrun
    rcases List.mem_cons.mp hrun with hr | hr
    · subst hr
      exact h1.isInfix
    · exact h2 run hr

/-- A URL substring begins a URL and holds no white space. -/
theorem urlSubstrings_spec (s u : JSString) (hu : u ∈ urlSubstrings s) :
    beginsUrl u = true ∧ (∀ c ∈ u, isWhiteSpace c = false) ∧ u <:+: s := by
  unfold urlSubstrings at hu
  obtain ⟨run, hrun, hfind⟩ := List.mem_filterMap.mp hu
  unfold urlOfRun at hfind
  have hbegin := List.find?_some hfind
  have hsuffix : u <:+ run := (List.mem_tails _ _).mp (List.mem_of_find?_eq_some hfind)
  unfold whitespaceFreeRuns at hrun
  have hmem := (List.mem_filter.mp hrun).1
  refine ⟨hbegin, fun c hc => ?_, ?_⟩
  · exact not_sep_of_mem_splitOnP isWhiteSpace s run hmem c (hsuffix.subset hc)
  · exact hsuffix.isInfix.trans (infix_of_mem_splitOnP isWhiteSpace s run hmem)

/-- The links of a description are the URL substrings of the text, each with its
label. -/
theorem links_eq (rt : Runtime) (description : JSString) :
    (extractLinksTags rt (some description)).links =
      (urlSubstrings description).map (fun u => { url := u, label := labelForUrl rt u }) := by
  cases description with
  | nil => rfl
  | cons c cs => simp only [extractLinksTags, scanAll_matchUrlAt]

/-- The lowercase form of a text of ASCII characters none of which is an uppercase
letter is the text itself. -/
theorem toLowerCase_fixed (rt : Runtime) (x : JSString)
    (hx : ∀ c ∈ x, isAscii c = true ∧ asciiLower c = c) : toLowerCase rt x = x := by
  have h := toLowerCaseFrom_fixed rt x [] [] hx
  simpa [toLowerCase, toLowerCaseFrom] using h

/-- C5: the links of a description are, in order of appearance and with duplicates
kept, the URL substrings of the text (in each maximal whitespace-free run, the
longest end part that begins with `http://` or `https://` and one more
character), each paired with its label; every link is a whitespace-free part of
the text that begins so; an absent or empty description has no
links and no tags; and on the sample sentence, for a URL parser that reads the
hosts `youtube.com` and `twitch.tv` off the two URLs, the labels are `YouTube`
then `Twitch`. -/
theorem extractLinksTags_links (rt : Runtime) (description : JSString) :
    (extractLinksTags rt (some description)).links =
      (urlSubstrings description).map (fun u => { url := u, label := labelForUrl rt u }) ∧
    (∀ l ∈ (extractLinksTags rt (some description)).links,
      beginsUrl l.url = true ∧ (∀ c ∈ l.url, isWhiteSpace c = false) ∧
        l.url <:+: description ∧ l.label = labelForUrl rt l.url) ∧
    extractLinksTags rt none = { links := [], tags := [] } ∧
    extractLinksTags rt (some []) = { links := [], tags := [] } ∧
    (rt.hostname "https://youtube.com/x".toList = some "youtube.com".toList →
      rt.hostname "https://twitch.tv/y".toList = some "twitch.tv".toList →
      (extractLinksTags rt
        (some "See https://youtube.com/x and https://twitch.tv/y #DNB #dnb".toList)).links =
        [{ url := "https://youtube.com/x".toList, label := "YouTube".toList },
         { url := "https://twitch.tv/y".toList, label := "Twitch".toList }]) := by
  refine ⟨links_eq rt description, fun l hl => ?_, rfl, rfl, fun hy ht => ?_⟩
  · rw [links_eq] at hl
    obtain ⟨u, hu, rfl⟩ := List.mem_map.mp hl
    obtain ⟨h1, h2, h3⟩ := urlSubstrings_spec description u hu
    exact ⟨h1, h2, h3, rfl⟩
  have hurls : urlSubstrings "See https://youtube.com/x and https://twitch.tv/y #DNB #dnb".toList
      = ["https://youtube.com/x".toList, "https://twitch.tv/y".toList] := by decide
  have hly : toLowerCase rt "youtube.com".toList = "youtube.com".toList :=
    toLowerCase_fixed rt _ (by decide)
  have hlt : toLowerCase rt "twitch.tv".toList = "twitch.tv".toList :=
    toLowerCase_fixed rt _ (by decide)
  have h1 : labelForUrl rt "https://youtube.com/x".toList = "YouTube".toList := by
    unfold labelForUrl
    rw [hy]
    dsimp only
    rw [hly]
    decide
  have h2 : labelForUrl rt "https://twitch.tv/y".toList = "Twitch".toList := by
    unfold labelForUrl
    rw [ht]
    dsimp only
    rw [hlt]
    decide
  rw [links_eq, hurls, List.map_cons, List.map_cons, List.map_nil, h1, h2]

/-- C5 with the host names read off the text: the sample sentence has two links,
labelled `YouTube` and `Twitch` in that order. -/
theorem extractLinksTags_links_witness :
    (extractLinksTags asciiRuntime
      (some "See https://youtube.com/x and https://twitch.tv/y #DNB #dnb".toList)).links =
      [{ url := "https://youtube.com/x".toList, label := "YouTube".toList },
       { url := "https://twitch.tv/y".toList, label := "Twitch".toList }] :=
  (extractLinksTags_links asciiRuntime []).2.2.2.2 (by decide) (by decide)

/-- C4 on `#IRL #DNB`: the tag `DNB` is returned and is not a reserved marker. -/
theorem extractLinksTags_tags_witness : "DNB".toList ∉ reservedTags :=
  (extractLinksTags_tags asciiRuntime "#IRL #DNB".toList).2.1 "DNB".toList (by decide)

/-- Without credentials the call returns the demonstration events, makes no
upstream call and only touches the interest store. -/
theorem fetch_unconfigured (rt : Runtime) (cfg : Config) (now : Int) (clock : Nat → Int)
    (ignoreCache : Bool) (upstream : Upstream) (st : State) (hcfg : cfg.configured = false) :
    fetchDiscordEvents rt cfg now clock ignoreCache upstream st =
      { result := .ok (getMockEvents rt now clock st.interests).1,
        state := { st with interests := (getMockEvents rt now clock st.interests).2 },
        upstreamCalls := 0 } := by
  simp [fetchDiscordEvents, hcfg]

/-- A call that ends with an error leaves the state as it was, with or without
credentials. -/
theorem fetch_error_state (rt : Runtime) (cfg : Config) (now : Int) (clock : Nat → Int)
    (ignoreCache : Bool) (upstream : Upstream) (st : State) (e : FetchError)
    (herr : (fetchDiscordEvents rt cfg now clock ignoreCache upstream st).result = .error e) :
    (fetchDiscordEvents rt cfg now clock ignoreCache upstream st).state = st := by
  cases hcfg : cfg.configured
  · rw [fetch_unconfigured rt cfg now clock ignoreCache upstream st hcfg] at herr
    cases herr
  · by_cases hhit : ignoreCache = false ∧ (∃ c, st.cachedEvents = some c) ∧
        now - st.cachedAt < 15000
    · obtain ⟨hi, ⟨cached, hc⟩, hfresh⟩ := hhit
      subst hi
      rw [fetch_hit rt cfg now clock upstream st cached hcfg hc hfresh] at herr
      cases herr
    · rw [fetch_miss rt cfg now clock ignoreCache upstream st hcfg
        (miss_of_not_hit now ignoreCache st hhit)] at herr ⊢
      exact (callUpstream_error_iff rt cfg now clock upstream st).2 ⟨e, herr⟩

/-- The answer of the read endpoint when the pipeline call returns. -/
theorem getEvents_ok (rt : Runtime) (cfg : Config) (now : Int) (clock : Nat → Int)
    (queryType queryForce : Option JSString) (upstream : Upstream) (st : State)
    (fetched : List EnrichedEvent)
    (hres : (fetchDiscordEvents rt cfg now clock (decide (queryForce = some "1".toList))
      upstream st).result = .ok fetched) :
    (getEvents rt cfg now clock queryType queryForce upstream st).1 =
      .events ((if toLowerCase rt (orEmpty queryType) ≠ [] then
        fetched.filter (fun e => e.type == toLowerCase rt (orEmpty queryType))
        else fetched).filter notPast) := by
  simp only [getEvents, hres]

/-- The answer of the read endpoint when the pipeline call throws. -/
theorem getEvents_error (rt : Runtime) (cfg : Config) (now : Int) (clock : Nat → Int)
    (queryType queryForce : Option JSString) (upstream : Upstream) (st : State)
    (e : FetchError)
    (hres : (fetchDiscordEvents rt cfg now clock (decide (queryForce = some "1".toList))
      upstream st).result = .error e) :
    (getEvents rt cfg now clock queryType queryForce upstream st).1 =
      match st.cachedEvents with
      | some cached => .events (cached.filter notPast)
      | none => .failure := by
  have hst := fetch_error_state rt cfg now clock _ upstream st e hres
  simp only [getEvents, hres, hst]
  cases st.cachedEvents <;> rfl

/-- The status filter lets no record of status `past` through. -/
theorem code_ne_past_of_mem_filter (l : List EnrichedEvent) (e : EnrichedEvent)
    (he : e ∈ l.filter notPast) : e.status.code ≠ "past".toList := by
  have h := (List.mem_filter.mp he).2
  simpa [notPast] using h

/-- C11, on the code: after a first request has cached one upcoming event of type
`virtual`, a forced request with the type filter `irl` whose upstream call
answers 500 is served from the cache, and the answer holds that event: the
fallback removes past records only and applies no type filter. -/
theorem getEvents_fallback_ignores_type :
    ∃ e, (getEvents asciiRuntime ⟨some "1".toList, some "t".toList⟩ 1000 (fun _ => 1000)
        (some "irl".toList) (some "1".toList) (.response 500 none)
        (getEvents asciiRuntime ⟨some "1".toList, some "t".toList⟩ 0 (fun _ => 0)
          none none
          (.response 200 (some [sampleRawEvent]))
          State.initial).2).1 = .events [e] ∧
      e.type = "virtual".toList ∧ e.type ≠ toLowerCase asciiRuntime "irl".toList ∧
      e.status.code = "upcoming".toList := by
  refine ⟨_, rfl, ?_, ?_, ?_⟩ <;> decide

/-- C12: whenever the read endpoint answers with an event list, after a pipeline
call that returned or from the cache after one that threw, no record of the list
has the status code `past`, and the list is a sublist, in the same order, of the
fetched sequence or of the cached sequence. -/
theorem getEvents_no_past (rt : Runtime) (cfg : Config) (now : Int) (clock : Nat → Int)
    (queryType queryForce : Option JSString) (upstream : Upstream) (st : State)
    (list : List EnrichedEvent)
    (hresp : (getEvents rt cfg now clock queryType queryForce upstream st).1 = .events list) :
    (∀ e ∈ list, e.status.code ≠ "past".toList) ∧
    ((∃ fetched,
        (fetchDiscordEvents rt cfg now clock (decide (queryForce = some "1".toList))
          upstream st).result = .ok fetched ∧ list.Sublist fetched) ∨
     (∃ err cached,
        (fetchDiscordEvents rt cfg now clock (decide (queryForce = some "1".toList))
          upstream st).result = .error err ∧
        st.cachedEvents = some cached ∧ list.Sublist cached)) := by
  cases hres : (fetchDiscordEvents rt cfg now clock (decide (queryForce = some "1".toList))
      upstream st).result with
  | ok fetched =>
    rw [getEvents_ok rt cfg now clock queryType queryForce upstream st fetched hres] at hresp
    cases hresp
    refine ⟨fun e he => code_ne_past_of_mem_filter _ e he, Or.inl ⟨fetched, rfl, ?_⟩⟩
    split_ifs
    · exact (List.filter_sublist _).trans (List.filter_sublist _)
    · exact List.filter_sublist _
  | error err =>
    rw [getEvents_error rt cfg now clock queryType queryForce upstream st err hres] at hresp
    cases hc : st.cachedEvents with
    | none =>
      rw [hc] at hresp
      cases hresp
    | some cached =>
      rw [hc] at hresp
      cases hresp
      exact ⟨fun e he => code_ne_past_of_mem_filter _ e he,
        Or.inr ⟨err, cached, rfl, rfl, List.filter_sublist _⟩⟩

/-- C12 on a first request that fetches the sample event and, with it, an event that
ended long ago: only the sample event is listed, and it is not past. -/
theorem getEvents_no_past_witness :
    (getEvents asciiRuntime ⟨some "1".toList, some "t".toList⟩ 0 (fun _ => 0) none none
      (.response 200 (some [sampleRawEvent,
        { sampleRawEvent with scheduled_start_time := .text (some (-20000000)) }]))
      State.initial).1 = .events [(enrich asciiRuntime "1".toList 0 [] sampleRawEvent).1] ∧
    (enrich asciiRuntime "1".toList 0 [] sampleRawEvent).1.status.code ≠ "past".toList :=
  ⟨by decide,
   (getEvents_no_past asciiRuntime ⟨some "1".toList, some "t".toList⟩ 0 (fun _ => 0)
      none none
      (.response 200 (some [sampleRawEvent,
        { sampleRawEvent with scheduled_start_time := .text (some (-20000000)) }]))
      State.initial [(enrich asciiRuntime "1".toList 0 [] sampleRawEvent).1] (by decide)).1
      _ (List.mem_cons_self _ _)⟩

/-- On a text of ASCII characters `toLowerCase` is the ASCII mapping, character by
character, whatever the runtime and the text before. -/
theorem toLowerCaseFrom_ascii (rt : Runtime) (w before : JSString)
    (h : ∀ c ∈ w, isAscii c = true) :
    toLowerCaseFrom rt before w = w.map asciiLower := by
  induction w generalizing before with
  | nil => rfl
  | cons c w ih =>
    have hc := h c (List.mem_cons_self _ _)
    simp [toLowerCaseFrom, hc, ih (before ++ [c]) (fun d hd => h d (List.mem_cons_of_mem _ hd))]

/-- Under a case table that maps no code point to the empty text, only the empty
text has an empty lowercase form. -/
theorem toLowerCase_eq_nil_iff (rt : Runtime)
    (hlow : ∀ before c after, rt.lowerNonAscii before c after ≠ []) (f : JSString) :
    toLowerCase rt f = [] ↔ f = [] := by
  cases f with
  | nil => simp [toLowerCase, toLowerCaseFrom]
  | cons c rest =>
    simp only [toLowerCase, toLowerCaseFrom, List.append_eq_nil, reduceCtorEq, iff_false,
      not_and]
    intro h
    exfalso
    by_cases hc : isAscii c = true
    · simp [hc] at h
    · simp only [hc, Bool.false_eq_true, if_false] at h
      exact hlow _ _ _ h

/-- C13: when the pipeline call returns, the answer of the read endpoint is the
fetched records, in order, whose status is not `past` and, when the type filter
is not empty, whose type is the lowercase form of the filter; an absent or empty
filter restricts nothing, and the filters `IRL` and `irl` give the same answer.
The case table of the runtime is taken to map no code point to the empty text. -/
theorem getEvents_success_filter (rt : Runtime) (cfg : Config) (now : Int)
    (clock : Nat → Int) (queryType queryForce : Option JSString) (upstream : Upstream)
    (st : State) (fetched : List EnrichedEvent)
    (hlow : ∀ before c after, rt.lowerNonAscii before c after ≠ [])
    (hres : (fetchDiscordEvents rt cfg now clock (decide (queryForce = some "1".toList))
      upstream st).result = .ok fetched) :
    (getEvents rt cfg now clock queryType queryForce upstream st).1 =
      .events (fetched.filter (fun e => notPast e &&
        (decide (orEmpty queryType = []) ||
          e.type == toLowerCase rt (orEmpty queryType)))) ∧
    ((queryType = none ∨ queryType = some []) →
      (getEvents rt cfg now clock queryType queryForce upstream st).1 =
        .events (fetched.filter notPast)) ∧
    (getEvents rt cfg now clock (some "IRL".toList) queryForce upstream st).1 =
      (getEvents rt cfg now clock (some "irl".toList) queryForce upstream st).1 := by
  have hmain : (getEvents rt cfg now clock queryType queryForce upstream st).1 =
      .events (fetched.filter (fun e => notPast e &&
        (decide (orEmpty queryType = []) ||
          e.type == toLowerCase rt (orEmpty queryType)))) := by
    rw [getEvents_ok rt cfg now clock queryType queryForce upstream st fetched hres]
    by_cases hf : orEmpty queryType = []
    · have hl : toLowerCase rt (orEmpty queryType) = [] :=
        (toLowerCase_eq_nil_iff rt hlow _).mpr hf
      rw [hl, hf]
      simp
    · have hl : toLowerCase rt (orEmpty queryType) ≠ [] :=
        fun h => hf ((toLowerCase_eq_nil_iff rt hlow _).mp h)
      simp only [hl, ne_eq, not_false_eq_true, if_true, List.filter_filter, hf, decide_False,
        Bool.false_or]
  refine ⟨hmain, fun habsent => ?_, ?_⟩
  · rw [hmain]
    have hf : orEmpty queryType = [] := by
      rcases habsent with h | h <;> rw [h] <;> rfl
    simp [hf]
  · have hup : toLowerCase rt "IRL".toList = "irl".toList := by
      have h := toLowerCaseFrom_ascii rt "IRL".toList [] (by decide)
      rw [toLowerCase, h]
      decide
    have hlo : toLowerCase rt "irl".toList = "irl".toList := toLowerCase_fixed rt _ (by decide)
    rw [getEvents_ok rt cfg now clock _ queryForce upstream st fetched hres,
      getEvents_ok rt cfg now clock _ queryForce upstream st fetched hres]
    simp only [orEmpty, hup, hlo]

/-- C13 on a first request with the type filter `VIRTUAL` that fetches the sample
event: the answer is the fetched list filtered on the type `virtual`. -/
theorem getEvents_success_filter_witness :
    (getEvents asciiRuntime ⟨some "1".toList, some "t".toList⟩ 0 (fun _ => 0)
      (some "VIRTUAL".toList) none (.response 200 (some [sampleRawEvent])) State.initial).1 =
      .events ([(enrich asciiRuntime "1".toList 0 [] sampleRawEvent).1].filter
        (fun e => notPast e &&
          (decide (orEmpty (some "VIRTUAL".toList) = []) ||
            e.type == toLowerCase asciiRuntime (orEmpty (some "VIRTUAL".toList))))) :=
  (getEvents_success_filter asciiRuntime ⟨some "1".toList, some "t".toList⟩ 0 (fun _ => 0)
    (some "VIRTUAL".toList) none (.response 200 (some [sampleRawEvent])) State.initial
    [(enrich asciiRuntime "1".toList 0 [] sampleRawEvent).1]
    (fun _ _ _ h => by cases h) rfl).1

/-- On a request whose parameter `type` is absent or a text, the read endpoint
answers with the failure response exactly when the pipeline call throws and no
cached sequence exists; when the call throws and a cached sequence exists it
answers with an event list; and without credentials it never answers with the
failure response. -/
theorem getEvents_failure_iff (rt : Runtime) (cfg : Config) (now : Int) (clock : Nat → Int)
    (queryType queryForce : Option JSString) (upstream : Upstream) (st : State) :
    ((getEvents rt cfg now clock queryType queryForce upstream st).1 = .failure ↔
      ((∃ err, (fetchDiscordEvents rt cfg now clock (decide (queryForce = some "1".toList))
          upstream st).result = .error err) ∧ st.cachedEvents = none)) ∧
    (∀ err cached,
      (fetchDiscordEvents rt cfg now clock (decide (queryForce = some "1".toList))
        upstream st).result = .error err →
      st.cachedEvents = some cached →
      (getEvents rt cfg now clock queryType queryForce upstream st).1 =
        .events (cached.filter notPast)) ∧
    (cfg.configured = false →
      (getEvents rt cfg now clock queryType queryForce upstream st).1 ≠ .failure) := by
  have hiff : (getEvents rt cfg now clock queryType queryForce upstream st).1 = .failure ↔
      ((∃ err, (fetchDiscordEvents rt cfg now clock (decide (queryForce = some "1".toList))
          upstream st).result = .error err) ∧ st.cachedEvents = none) := by
    cases hres : (fetchDiscordEvents rt cfg now clock (decide (queryForce = some "1".toList))
        upstream st).result with
    | ok fetched =>
      rw [getEvents_ok rt cfg now clock queryType queryForce upstream st fetched hres]
      simp
    | error err =>
      rw [getEvents_error rt cfg now clock queryType queryForce upstream st err hres]
      cases st.cachedEvents <;> simp
  refine ⟨hiff, fun err cached hres hc => ?_, fun hcfg hfail => ?_⟩
  · rw [getEvents_error rt cfg now clock queryType queryForce upstream st err hres, hc]
  · obtain ⟨⟨err, herr⟩, _⟩ := hiff.mp hfail
    rw [fetch_unconfigured rt cfg now clock _ upstream st hcfg] at herr
    cases herr

/-- At the initial state with credentials, a request with no parameter `type` whose
`fetch` is rejected gets the failure response. -/
theorem getEvents_failure_iff_witness :
    (getEvents asciiRuntime ⟨some "1".toList, some "t".toList⟩ 0 (fun _ => 0)
      none none .failed State.initial).1 = .failure :=
  (getEvents_failure_iff asciiRuntime ⟨some "1".toList, some "t".toList⟩ 0 (fun _ => 0)
    none none .failed State.initial).1.mpr ⟨⟨.transport, rfl⟩, rfl⟩

/-- C15: an action other than `going` and `interested`, a missing one included,
gets the answer `Invalid action` and leaves the state, the interest store
included, exactly as it was. -/
theorem postInterest_invalid (id : JSString) (action : Option JSString) (st : State)
    (hg : action ≠ some "going".toList) (hi : action ≠ some "interested".toList) :
    postInterest id action st = (.invalidAction, st) := by
  cases action with
  | none => rfl
  | some a =>
    have hg2 : a ≠ "going".toList := fun h => hg (by rw [h])
    have hi2 : a ≠ "interested".toList := fun h => hi (by rw [h])
    simp only [postInterest]
    rw [if_pos ⟨hg2, hi2⟩]

/-- C15 on the action `Going`, which differs from `going` by its case, and on a
missing action. -/
theorem postInterest_invalid_witness :
    postInterest "42".toList (some "Going".toList) State.initial =
      (.invalidAction, State.initial) ∧
    postInterest "42".toList none State.initial = (.invalidAction, State.initial) :=
  ⟨postInterest_invalid "42".toList (some "Going".toList) State.initial (by decide) (by decide),
   postInterest_invalid "42".toList none State.initial (by decide) (by decide)⟩

/-- C18, on the code: on a fresh store `getStats` called with `constructor` or
with `__proto__` returns the member of `Object.prototype` of that name, not a
counter pair, and creates no entry; a key such as `42` gets a new pair of zeros. -/
theorem getStats_inherited_key :
    getStats [] "constructor".toList = (.inherited "constructor".toList, []) ∧
    getStats [] "__proto__".toList = (.inherited "__proto__".toList, []) ∧
    getStats [] "42".toList =
      (.counter "42".toList, [("42".toList, { going := 0, interested := 0 })]) := by
  decide

/-- C14, on the code: on a fresh process a `going` action on the id `constructor`
is answered with the member of `Object.prototype` of that name and leaves the
interest store empty: no `going` counter is increased and no counter pair is
returned; the same action on the id `42` counts 1. -/
theorem postInterest_inherited_key :
    postInterest "constructor".toList (some "going".toList) State.initial =
      (.inheritedMember "constructor".toList, State.initial) ∧
    postInterest "42".toList (some "going".toList) State.initial =
      (.counter { going := 1, interested := 0 },
        { cachedEvents := none, cachedAt := 0,
          interests := [("42".toList, { going := 1, interested := 0 })] }) := by
  decide

/-- The entry read under a key after an update through a reference. -/
theorem lookup_updateCounter (id k : JSString) (f : Counter → Counter) (l : Interests) :
    (updateCounter id f l).lookup k = if k = id then (l.lookup k).map f else l.lookup k := by
  induction l with
  | nil => simp [updateCounter]
  | cons entry rest ih =>
    obtain ⟨key, c⟩ := entry
    by_cases hkey : key = id
    · subst hkey
      by_cases hk : k = key
      · subst hk
        simp [updateCounter, List.lookup]
      · have hk2 : (k == key) = false := by simpa using hk
        simp [updateCounter, List.lookup, hk, hk2]
    · by_cases hk : k = key
      · subst hk
        have hne : ¬ k = id := hkey
        simp [updateCounter, List.lookup, hne]
      · have hk2 : (k == key) = false := by simpa using hk
        simp only [updateCounter, hkey, if_false, List.lookup, hk2, ih]

/-- The entry read under a key after a new pair was added at the end. -/
theorem lookup_append_entry (id k : JSString) (c : Counter) (l : Interests) :
    (l ++ [(id, c)]).lookup k =
      match l.lookup k with
      | some x => some x
      | none => if k = id then some c else none := by
  induction l with
  | nil =>
    by_cases hk : k = id
    · subst hk
      simp [List.lookup]
    · have hk2 : (k == id) = false := by simpa using hk
      simp [List.lookup, hk, hk2]
  | cons entry rest ih =>
    obtain ⟨key, x⟩ := entry
    by_cases hk : k = key
    · subst hk
      simp [List.lookup]
    · have hk2 : (k == key) = false := by simpa using hk
      simp only [List.cons_append, List.lookup, hk2]
      exact ih

/-- A call of `getStats` changes no counter: a pair it creates holds zeros, which is
what a missing pair counts as. -/
theorem getStats_counterAt (l : Interests) (id k : JSString) :
    counterAt (getStats l id).2 k = counterAt l k := by
  unfold getStats
  cases hl : l.lookup id with
  | some c => rfl
  | none =>
    dsimp only
    split_ifs
    · rfl
    · unfold counterAt
      rw [lookup_append_entry]
      cases hk : l.lookup k with
      | some x => rfl
      | none =>
        dsimp only
        split_ifs <;> rfl

/-- For a key that is not the name of a member of `Object.prototype`, or that has
its entry already, `getStats` returns the counter stored under the key. -/
theorem getStats_counter (l : Interests) (id : JSString)
    (hid : objectPrototypeKeys.contains id = false ∨ (l.lookup id).isSome = true) :
    (getStats l id).1 = .counter id := by
  unfold getStats
  cases hl : l.lookup id with
  | some c => rfl
  | none =>
    rcases hid with h | h
    · dsimp only
      rw [h]
      rfl
    · rw [hl] at h
      cases h

/-- For such a key the entry is in the store after `getStats`, with the counts the
key had before (zeros when it had no entry). -/
theorem getStats_lookup (l : Interests) (id : JSString)
    (hid : objectPrototypeKeys.contains id = false ∨ (l.lookup id).isSome = true) :
    (getStats l id).2.lookup id = some (counterAt l id) := by
  unfold getStats counterAt
  cases hl : l.lookup id with
  | some c => simp [hl]
  | none =>
    rcases hid with h | h
    · dsimp only
      rw [h]
      simp [lookup_append_entry, hl]
    · rw [hl] at h
      cases h

/-- The interest endpoint on a key that is not the name of a member of
`Object.prototype` (or that has its entry already) and on one of the two actions:
the counter of the action goes up by one under that key, the answer is the
updated pair, the counts under every other key and the cache entry stay. -/
theorem postInterest_counter (id a : JSString) (st : State)
    (ha : a = "going".toList ∨ a = "interested".toList)
    (hid : objectPrototypeKeys.contains id = false ∨ (st.interests.lookup id).isSome = true) :
    (postInterest id (some a) st).1 = .counter (bump a (counterAt st.interests id)) ∧
    counterAt (postInterest id (some a) st).2.interests id =
      bump a (counterAt st.interests id) ∧
    (∀ k, k ≠ id →
      (postInterest id (some a) st).2.interests.lookup k = (getStats st.interests id).2.lookup k ∧
      counterAt (postInterest id (some a) st).2.interests k = counterAt st.interests k) ∧
    (postInterest id (some a) st).2.cachedEvents = st.cachedEvents ∧
    (postInterest id (some a) st).2.cachedAt = st.cachedAt := by
  have hnot : ¬ (a ≠ "going".toList ∧ a ≠ "interested".toList) := by
    rcases ha with h | h <;> simp [h]
  have hpost : postInterest id (some a) st =
      (.counter (counterAt (updateCounter id (bump a) (getStats st.interests id).2) id),
        { st with interests := updateCounter id (bump a) (getStats st.interests id).2 }) := by
    simp only [postInterest]
    rw [if_neg hnot, getStats_counter st.interests id hid]
  have hself : counterAt (updateCounter id (bump a) (getStats st.interests id).2) id =
      bump a (counterAt st.interests id) := by
    unfold counterAt
    rw [lookup_updateCounter, if_pos rfl, getStats_lookup st.interests id hid]
    rfl
  rw [hpost]
  refine ⟨by rw [hself], hself, fun k hk => ?_, rfl, rfl⟩
  have hlook : (updateCounter id (bump a) (getStats st.interests id).2).lookup k =
      (getStats st.interests id).2.lookup k := by
    rw [lookup_updateCounter, if_neg hk]
  refine ⟨hlook, ?_⟩
  show counterAt (updateCounter id (bump a) (getStats st.interests id).2) k = _
  unfold counterAt
  rw [hlook]
  exact getStats_counterAt st.interests id k

/-- On such a key, `n` actions `going` in a row add `n` to the counter `going` and
leave the counter `interested` as it was. -/
theorem postInterest_going_iterate (id : JSString) (n : Nat) (st : State)
    (hid : objectPrototypeKeys.contains id = false) :
    counterAt ((fun s => (postInterest id (some "going".toList) s).2)^[n] st).interests id =
      { going := (counterAt st.interests id).going + n,
        interested := (counterAt st.interests id).interested } := by
  induction n generalizing st with
  | zero => rfl
  | succ n ih =>
    rw [Function.iterate_succ_apply, ih,
      (postInterest_counter id "going".toList st (Or.inl rfl) (Or.inl hid)).2.1]
    simp only [bump, if_true, Counter.mk.injEq, and_true]
    omega

/-- The interest endpoint lowers no counter, whatever the key and the action. -/
theorem postInterest_counterAt_le (id : JSString) (action : Option JSString) (st : State)
    (k : JSString) :
    (counterAt st.interests k).going ≤ (counterAt (postInterest id action st).2.interests k).going ∧
    (counterAt st.interests k).interested ≤
      (counterAt (postInterest id action st).2.interests k).interested := by
  cases action with
  | none => exact ⟨le_refl _, le_refl _⟩
  | some a =>
    simp only [postInterest]
    split_ifs
    · exact ⟨le_refl _, le_refl _⟩
    · cases href : (getStats st.interests id).1 with
      | inherited key =>
        dsimp only
        rw [getStats_counterAt]
        exact ⟨le_refl _, le_refl _⟩
      | counter key =>
        dsimp only
        have hbase := getStats_counterAt st.interests id k
        unfold counterAt at hbase ⊢
        rw [lookup_updateCounter, ← hbase]
        split_ifs
        · cases (getStats st.interests id).2.lookup k with
          | none => exact ⟨le_refl _, le_refl _⟩
          | some c =>
            simp only [Option.map_some', Option.getD_some, bump]
            split_ifs <;> constructor <;> simp
        · exact ⟨le_refl _, le_refl _⟩

/-- Mapping the events changes no counter, for a callback that reaches the store
through `getStats` only. -/
theorem mapEvents_counterAt (f : Int → Interests → RawEvent → EnrichedEvent × Interests)
    (hf : ∀ t i e k, counterAt (f t i e).2 k = counterAt i k) (clock : Nat → Int)
    (events : List RawEvent) :
    ∀ (n : Nat) (interests : Interests) (k : JSString),
      counterAt (mapEvents f clock n interests events).2 k = counterAt interests k := by
  induction events with
  | nil => intro n interests k; rfl
  | cons e es ih =>
    intro n interests k
    simp only [mapEvents]
    rw [ih, hf]

/-- A call of `fetchDiscordEvents` changes no counter. -/
theorem fetch_counterAt (rt : Runtime) (cfg : Config) (now : Int) (clock : Nat → Int)
    (ignoreCache : Bool) (upstream : Upstream) (st : State) (k : JSString) :
    counterAt (fetchDiscordEvents rt cfg now clock ignoreCache upstream st).state.interests k =
      counterAt st.interests k := by
  have hmock : ∀ t i e k, counterAt (enrichMock rt t i e).2 k = counterAt i k :=
    fun t i e k => getStats_counterAt i e.id k
  have hreal : ∀ t i e k,
      counterAt (enrich rt (orEmpty cfg.guildId) t i e).2 k = counterAt i k :=
    fun t i e k => getStats_counterAt i e.id k
  cases hcfg : cfg.configured
  · rw [fetch_unconfigured rt cfg now clock ignoreCache upstream st hcfg]
    exact mapEvents_counterAt _ hmock clock _ 0 st.interests k
  · by_cases hhit : ignoreCache = false ∧ (∃ c, st.cachedEvents = some c) ∧
        now - st.cachedAt < 15000
    · obtain ⟨hi, ⟨cached, hc⟩, hfresh⟩ := hhit
      subst hi
      rw [fetch_hit rt cfg now clock upstream st cached hcfg hc hfresh]
    · rw [fetch_miss rt cfg now clock ignoreCache upstream st hcfg
        (miss_of_not_hit now ignoreCache st hhit)]
      unfold callUpstream
      split
      · rfl
      · split_ifs
        · split <;> rfl
        · rfl
        · split
          · rfl
          · exact mapEvents_counterAt _ hreal clock _ 0 st.interests k

/-- The read endpoint changes no counter. -/
theorem getEvents_counterAt (rt : Runtime) (cfg : Config) (now : Int) (clock : Nat → Int)
    (queryType queryForce : Option JSString) (upstream : Upstream) (st : State)
    (k : JSString) :
    counterAt (getEvents rt cfg now clock queryType queryForce upstream st).2.interests k =
      counterAt st.interests k := by
  have h := fetch_counterAt rt cfg now clock (decide (queryForce = some "1".toList))
    upstream st k
  simp only [getEvents]
  split
  · exact h
  · split <;> exact h

/-- An absent description and an empty one give the same links and tags, which is
what `e.description || ""` relies on. -/
theorem extractLinksTags_orEmpty (rt : Runtime) (description : Option JSString) :
    extractLinksTags rt (some (orEmpty description)) = extractLinksTags rt description := by
  cases description with
  | none => rfl
  | some d => cases d <;> rfl

/-- The mapped sequence matches the raw sequence position by position: each record
is the record `enrich` builds from the raw event at its position. -/
theorem mapEvents_forall₂ (rt : Runtime) (guildId : JSString) (clock : Nat → Int)
    (events : List RawEvent) :
    ∀ (n : Nat) (interests : Interests),
      List.Forall₂ (fun r e => ∃ t i, r = (enrich rt guildId t i e).1)
        (mapEvents (enrich rt guildId) clock n interests events).1 events := by
  induction events with
  | nil => intro n interests; exact List.Forall₂.nil
  | cons e es ih =>
    intro n interests
    simp only [mapEvents]
    exact List.Forall₂.cons ⟨_, _, rfl⟩ (ih _ _)

/-- C17: `enrich` is defined on every raw event, also with the description, the
end, the image or the location absent, and passes `id`, `name`, `description`,
the start and the end through; the image is the CDN address built from the id and
the image reference when there is one and is absent otherwise; the link is the
event address built from the guild id and the id; the location is the metadata
location or absent; the type, status, links and tags are those of `detectType`,
`getStatus` and `extractLinksTags` on the fields. A success response is mapped
without an error, and the mapped sequence has the length and the order of the
raw sequence. -/
theorem enrich_record (rt : Runtime) (cfg : Config) (guildId : JSString) (now : Int)
    (interests : Interests) (e : RawEvent) (clock : Nat → Int) (n : Nat)
    (events : List RawEvent) (status : Nat) (st : State) :
    (enrich rt guildId now interests e).1.id = e.id ∧
    (enrich rt guildId now interests e).1.name = e.name ∧
    (enrich rt guildId now interests e).1.description = e.description ∧
    (enrich rt guildId now interests e).1.start = e.scheduled_start_time ∧
    (enrich rt guildId now interests e).1.end_ = e.scheduled_end_time ∧
    (∀ image, e.image = some image → image ≠ [] →
      (enrich rt guildId now interests e).1.image =
        some ("https://cdn.discordapp.com/guild-events/".toList ++ e.id ++ "/".toList ++
          image ++ ".webp?size=1024".toList)) ∧
    (e.image = none ∨ e.image = some [] → (enrich rt guildId now interests e).1.image = none) ∧
    (enrich rt guildId now interests e).1.link =
      "https://discord.com/events/".toList ++ guildId ++ "/".toList ++ e.id ∧
    (enrich rt guildId now interests e).1.location = orNull e.location ∧
    (enrich rt guildId now interests e).1.type = detectType rt e.name e.description ∧
    (enrich rt guildId now interests e).1.status =
      getStatus now e.scheduled_start_time e.scheduled_end_time ∧
    (enrich rt guildId now interests e).1.links = (extractLinksTags rt e.description).links ∧
    (enrich rt guildId now interests e).1.tags = (extractLinksTags rt e.description).tags ∧
    (statusOk status = true →
      (callUpstream rt cfg now clock (.response status (some events)) st).result =
        .ok (mapEvents (enrich rt (orEmpty cfg.guildId)) clock 0 st.interests events).1) ∧
    (mapEvents (enrich rt guildId) clock n interests events).1.length = events.length ∧
    List.Forall₂ (fun r raw => ∃ t i, r = (enrich rt guildId t i raw).1)
      (mapEvents (enrich rt guildId) clock n interests events).1 events := by
  refine ⟨rfl, rfl, rfl, rfl, rfl, ?_, ?_, rfl, rfl, rfl, rfl, ?_, ?_, ?_, ?_,
    mapEvents_forall₂ rt guildId clock events n interests⟩
  · intro image himage hne
    simp only [enrich, himage]
    cases image with
    | nil => exact absurd rfl hne
    | cons c cs => rfl
  · intro h
    rcases h with h | h <;> simp only [enrich, h] <;> rfl
  · simp only [enrich, extractLinksTags_orEmpty]
  · simp only [enrich, extractLinksTags_orEmpty]
  · intro hok
    simp [callUpstream, statusOk_ne_429 status hok, hok]
  · exact (mapEvents_forall₂ rt guildId clock events n interests).length_eq

/-- C17 on the sample event with the image reference `abc`, in the guild `1`: the
image and the link are the two addresses, and the type is `virtual`. -/
theorem enrich_record_witness :
    (enrich asciiRuntime "1".toList 0 []
      { sampleRawEvent with image := some "abc".toList }).1.image =
      some "https://cdn.discordapp.com/guild-events/7/abc.webp?size=1024".toList ∧
    (enrich asciiRuntime "1".toList 0 []
      { sampleRawEvent with image := some "abc".toList }).1.link =
      "https://discord.com/events/1/7".toList ∧
    (callUpstream asciiRuntime ⟨some "1".toList, some "t".toList⟩ 0 (fun _ => 0)
      (.response 200 (some [sampleRawEvent])) State.initial).result =
      .ok [(enrich asciiRuntime "1".toList 0 [] sampleRawEvent).1] :=
  have h := enrich_record asciiRuntime ⟨some "1".toList, some "t".toList⟩ "1".toList 0 []
    { sampleRawEvent with image := some "abc".toList } (fun _ => 0) 0 [sampleRawEvent] 200
    State.initial
  ⟨(h.2.2.2.2.2.1 "abc".toList rfl (by decide)).trans (by decide),
   h.2.2.2.2.2.2.2.1.trans (by decide),
   h.2.2.2.2.2.2.2.2.2.2.2.2.2.1 (by decide)⟩

/-- A hashtag token stands in the text right after a `#`. -/
theorem infix_of_mem_hashtagTokens (s w : JSString) (hw : w ∈ hashtagTokens s) :
    ('#' :: w) <:+: s := by
  unfold hashtagTokens at hw
  obtain ⟨t, ht, hat⟩ := List.mem_filterMap.mp hw
  have hsuffix : t <:+ s := (List.mem_tails _ _).mp ht
  unfold hashtagAt at hat
  split at hat
  · rename_i rest
    split at hat
    · cases hat
    · cases hat
      have hpre : ('#' :: rest.takeWhile isWordChar) <+: ('#' :: rest) :=
        (List.prefix_cons_inj '#').mpr (List.takeWhile_prefix isWordChar)
      exact hpre.isInfix.trans hsuffix.isInfix
  · cases hat

/-- Uppercasing goes through a concatenation. -/
theorem toUpperCase_append (rt : Runtime) (a b : JSString) :
    toUpperCase rt (a ++ b) = toUpperCase rt a ++ toUpperCase rt b := by
  simp [toUpperCase, List.flatMap_append]

/-- An ASCII needle found in a text is found, uppercased, in the uppercased text. -/
theorem infix_toUpperCase (rt : Runtime) (needle s : JSString)
    (hn : ∀ c ∈ needle, isAscii c = true) (h : needle <:+: s) :
    needle.map asciiUpper <:+: toUpperCase rt s := by
  obtain ⟨pre, post, rfl⟩ := h
  rw [toUpperCase_append, toUpperCase_append, toUpperCase_ascii rt needle hn]
  exact ⟨_, _, rfl⟩

/-- A text that holds one of the four markers is not classified `other`. -/
theorem detectType_ne_other (rt : Runtime) (name : JSString) (description : Option JSString)
    (h : includes (toUpperCase rt (name ++ [lineFeed] ++ orEmpty description)) "#IRL".toList
          = true ∨
        includes (toUpperCase rt (name ++ [lineFeed] ++ orEmpty description)) "#VR".toList
          = true ∨
        includes (toUpperCase rt (name ++ [lineFeed] ++ orEmpty description)) "#VIRTUAL".toList
          = true ∨
        includes (toUpperCase rt (name ++ [lineFeed] ++ orEmpty description)) "#RADIO".toList
          = true) :
    detectType rt name description ≠ "other".toList := by
  dsimp only [detectType]
  generalize toUpperCase rt (name ++ [lineFeed] ++ orEmpty description) = text at h ⊢
  generalize includes text "#IRL".toList = bi at h ⊢
  generalize includes text "#VR".toList = bv at h ⊢
  generalize includes text "#VIRTUAL".toList = bw at h ⊢
  generalize includes text "#RADIO".toList = br at h ⊢
  cases bi <;> cases bv <;> cases bw <;> cases br <;> simp at h ⊢

/-- C20: when the tag pattern matches in the description a token that the filter of
`extractLinksTags` removes, one whose uppercase form is `IRL`, `VR`, `VIRTUAL` or
`RADIO`, the type of the event is not `other`. -/
theorem detectType_of_reserved_tag (rt : Runtime) (name description w : JSString)
    (hw : w ∈ scanAll matchTagAt description)
    (hres : reservedTags.contains (toUpperCase rt w) = true) :
    detectType rt name (some description) ≠ "other".toList := by
  rw [scanAll_matchTagAt] at hw
  have hascii : ∀ c ∈ w, isAscii c = true := fun c hc =>
    isAscii_of_isWordChar c (isWordChar_of_mem_hashtagTokens description w hw c hc)
  rw [toUpperCase_ascii rt w hascii] at hres
  have hmarker : ∀ c ∈ ('#' :: w), isAscii c = true := by
    intro c hc
    rcases List.mem_cons.mp hc with h | h
    · subst h
      decide
    · exact hascii c h
  have hdesc : ('#' :: w) <:+: (name ++ [lineFeed] ++ orEmpty (some description)) :=
    (infix_of_mem_hashtagTokens description w hw).trans (List.suffix_append _ _).isInfix
  have hin := infix_toUpperCase rt _ _ hmarker hdesc
  have hhash : List.map asciiUpper ('#' :: w) = '#' :: w.map asciiUpper := by
    rw [List.map_cons]
    rfl
  rw [hhash] at hin
  apply detectType_ne_other
  simp only [reservedTags, List.contains_cons, List.contains_nil, Bool.or_false,
    Bool.or_eq_true, beq_iff_eq] at hres
  rcases hres with h | h | h | h
  · exact Or.inl ((includes_iff _ _).mpr (by rw [h] at hin; exact hin))
  · exact Or.inr (Or.inl ((includes_iff _ _).mpr (by rw [h] at hin; exact hin)))
  · exact Or.inr (Or.inr (Or.inl ((includes_iff _ _).mpr (by rw [h] at hin; exact hin))))
  · exact Or.inr (Or.inr (Or.inr ((includes_iff _ _).mpr (by rw [h] at hin; exact hin))))

/-- C20 on the description `live set #Radio`: the token `Radio` is matched and
removed from the tags, and the type is not `other`. -/
theorem detectType_of_reserved_tag_witness :
    detectType asciiRuntime "Night".toList (some "live set #Radio".toList) ≠ "other".toList :=
  detectType_of_reserved_tag asciiRuntime "Night".toList "live set #Radio".toList
    "Radio".toList (by decide) (by decide)

/-- The type of an event whose name and description are ASCII texts is decided on
the ASCII uppercase form of the text, whatever the runtime. -/
theorem detectType_ascii (rt : Runtime) (name : JSString) (description : Option JSString)
    (h : ∀ c ∈ name ++ [lineFeed] ++ orEmpty description, isAscii c = true) :
    detectType rt name description = detectType asciiRuntime name description := by
  simp only [detectType, toUpperCase_ascii rt _ h, toUpperCase_ascii asciiRuntime _ h]

/-- The label of a URL whose host name the parser reads as a lowercase ASCII text is
decided on that text. -/
theorem labelForUrl_of_hostname (rt : Runtime) (url host : JSString)
    (hparse : rt.hostname url = some host)
    (hfixed : ∀ c ∈ host, isAscii c = true ∧ asciiLower c = c) :
    labelForUrl rt url =
      labelForUrl { asciiRuntime with hostname := fun _ => some host } url := by
  simp only [labelForUrl, hparse, toLowerCase_fixed rt host hfixed,
    toLowerCase_fixed _ host hfixed]

/-- The URLs of the links of a description. -/
theorem links_urls (rt : Runtime) (description : JSString) :
    (extractLinksTags rt (some description)).links.map (fun l => l.url) =
      urlSubstrings description := by
  rw [links_eq, List.map_map]
  exact List.map_id _

/-- The labels of the links of a description. -/
theorem links_labels (rt : Runtime) (description : JSString) :
    (extractLinksTags rt (some description)).links.map (fun l => l.label) =
      (urlSubstrings description).map (labelForUrl rt) := by
  rw [links_eq, List.map_map]
  rfl

/-- The derived fields of a demonstration record. -/
theorem enrichMock_fields (rt : Runtime) (now : Int) (interests : Interests) (e : RawEvent) :
    (enrichMock rt now interests e).1.type = detectType rt e.name e.description ∧
    (enrichMock rt now interests e).1.tags = (extractLinksTags rt e.description).tags ∧
    (enrichMock rt now interests e).1.links = (extractLinksTags rt e.description).links ∧
    (enrichMock rt now interests e).1.status =
      getStatus now e.scheduled_start_time e.scheduled_end_time :=
  ⟨rfl, rfl, rfl, rfl⟩

/-- C19: without credentials, whatever the cache and the bypass flag, the call
makes no upstream call, returns without an error, leaves the cache entry as it
was, and returns two records: id `1`, type `irl`, tags `DNB`, location `Haapsalu`,
one link, labelled `Radio`; then id `2`, type `virtual`, tags `HARDCORE`, location
`VRChat`, no end, one link, labelled `Twitch`; both with the link `#`, and both
`upcoming` when the clock read for the status has not moved 30 minutes (3 hours
for the second) past the time the call read first. The labels are stated for a
URL parser that reads the two host names. -/
theorem fetch_mock (rt : Runtime) (cfg : Config) (now : Int) (clock : Nat → Int)
    (ignoreCache : Bool) (upstream : Upstream) (st : State) (hcfg : cfg.configured = false) :
    (fetchDiscordEvents rt cfg now clock ignoreCache upstream st).upstreamCalls = 0 ∧
    (fetchDiscordEvents rt cfg now clock ignoreCache upstream st).state.cachedEvents =
      st.cachedEvents ∧
    (fetchDiscordEvents rt cfg now clock ignoreCache upstream st).state.cachedAt =
      st.cachedAt ∧
    ∃ e1 e2,
      (fetchDiscordEvents rt cfg now clock ignoreCache upstream st).result = .ok [e1, e2] ∧
      e1.id = "1".toList ∧ e1.type = "irl".toList ∧ e1.tags = ["DNB".toList] ∧
      e1.location = some "Haapsalu".toList ∧ e1.link = "#".toList ∧
      e1.links.map (fun l => l.url) = ["https://hpsbassline.myftp.biz/".toList] ∧
      (rt.hostname "https://hpsbassline.myftp.biz/".toList = some "hpsbassline.myftp.biz".toList →
        e1.links.map (fun l => l.label) = ["Radio".toList]) ∧
      (clock 0 < now + 1800000 → e1.status.code = "upcoming".toList) ∧
      e2.id = "2".toList ∧ e2.type = "virtual".toList ∧ e2.tags = ["HARDCORE".toList] ∧
      e2.location = some "VRChat".toList ∧ e2.end_ = .absent ∧ e2.link = "#".toList ∧
      e2.links.map (fun l => l.url) = ["https://twitch.tv/hps_bassline".toList] ∧
      (rt.hostname "https://twitch.tv/hps_bassline".toList = some "twitch.tv".toList →
        e2.links.map (fun l => l.label) = ["Twitch".toList]) ∧
      (clock 1 < now + 10800000 → e2.status.code = "upcoming".toList) := by
  rw [fetch_unconfigured rt cfg now clock ignoreCache upstream st hcfg]
  refine ⟨rfl, rfl, rfl, _, _, rfl, rfl, ?_, ?_, rfl, rfl, ?_, ?_, ?_, rfl, ?_, ?_, rfl, rfl,
    rfl, ?_, ?_, ?_⟩
  · rw [(enrichMock_fields rt _ _ _).1]
    dsimp only
    rw [detectType_ascii rt _ _ (by decide)]
    decide
  · rw [(enrichMock_fields rt _ _ _).2.1]
    dsimp only
    rw [tags_eq_specTags]
    decide
  · rw [(enrichMock_fields rt _ _ _).2.2.1]
    dsimp only
    rw [links_urls]
    decide
  · intro hhost
    rw [(enrichMock_fields rt _ _ _).2.2.1]
    dsimp only
    rw [links_labels]
    have hurls : urlSubstrings ("Open DJ set in the city center.".toList ++ [lineFeed] ++
        "#IRL #DNB".toList ++ [lineFeed] ++ "https://hpsbassline.myftp.biz/".toList) =
        ["https://hpsbassline.myftp.biz/".toList] := by decide
    rw [hurls, List.map_cons, List.map_nil, labelForUrl_of_hostname rt _ _ hhost (by decide)]
    decide
  · intro hclock
    rw [(enrichMock_fields rt _ _ _).2.2.2]
    simp [getStatus, numLt, hclock]
  · rw [(enrichMock_fields rt _ _ _).1]
    dsimp only
    rw [detectType_ascii rt _ _ (by decide)]
    decide
  · rw [(enrichMock_fields rt _ _ _).2.1]
    dsimp only
    rw [tags_eq_specTags]
    decide
  · rw [(enrichMock_fields rt _ _ _).2.2.1]
    dsimp only
    rw [links_urls]
    decide
  · intro hhost
    rw [(enrichMock_fields rt _ _ _).2.2.1]
    dsimp only
    rw [links_labels]
    have hurls : urlSubstrings ("Immersive VR experience.".toList ++ [lineFeed] ++
        "#VR #HARDCORE".toList ++ [lineFeed] ++ "https://twitch.tv/hps_bassline".toList) =
        ["https://twitch.tv/hps_bassline".toList] := by decide
    rw [hurls, List.map_cons, List.map_nil, labelForUrl_of_hostname rt _ _ hhost (by decide)]
    decide
  · intro hclock
    rw [(enrichMock_fields rt _ _ _).2.2.2]
    simp [getStatus, numLt, hclock]

/-- C19 with no credentials set, host names read off the text and a clock that
stands at 1000: no upstream call, two records, both `upcoming`, labelled `Radio`
and `Twitch`. -/
theorem fetch_mock_witness :
    (fetchDiscordEvents asciiRuntime ⟨none, none⟩ 1000 (fun _ => 1000) true .failed
      State.initial).upstreamCalls = 0 ∧
    ∃ e1 e2,
      (fetchDiscordEvents asciiRuntime ⟨none, none⟩ 1000 (fun _ => 1000) true .failed
        State.initial).result = .ok [e1, e2] ∧
      e1.links.map (fun l => l.label) = ["Radio".toList] ∧
      e1.status.code = "upcoming".toList ∧
      e2.links.map (fun l => l.label) = ["Twitch".toList] ∧
      e2.status.code = "upcoming".toList := by
  obtain ⟨hcalls, _, _, e1, e2, hres, _, _, _, _, _, _, hl1, hs1, _, _, _, _, _, _, _, hl2, hs2⟩ :=
    fetch_mock asciiRuntime ⟨none, none⟩ 1000 (fun _ => 1000) true .failed State.initial
      (by decide)
  exact ⟨hcalls, e1, e2, hres, hl1 (by decide), hs1 (by decide), hl2 (by decide),
    hs2 (by decide)⟩

/-- C16, as stated, fails: without credentials and with an empty cache, a request
whose parameter `type` is an array gets the failure response, although a
pipeline call on that state returns the demonstration events and does not
fail. -/
theorem getEventsHandler_failure_counterexample :
    (getEventsHandler asciiRuntime ⟨none, none⟩ 0 (fun _ => 0) .other none .failed
      State.initial).1 = .failure ∧
    Config.configured ⟨none, none⟩ = false ∧
    ∃ events, (fetchDiscordEvents asciiRuntime ⟨none, none⟩ 0 (fun _ => 0) false .failed
      State.initial).result = .ok events :=
  ⟨rfl, rfl, _, rfl⟩

/-- C16, amended: the read endpoint answers with the failure response exactly when
its `try` block throws, that is when the parameter `type` is an array or an
object or the pipeline call throws, and no cached sequence exists; when the
`try` block throws and a cached sequence exists it answers with the cached
records that are not past; and without credentials it answers with the failure
response only for a parameter `type` that is an array or an object, on an empty
cache. A request answered with the failure response or from the cache after a
throw leaves the cache entry as it was. -/
theorem getEventsHandler_failure_iff (rt : Runtime) (cfg : Config) (now : Int)
    (clock : Nat → Int) (queryType : QueryValue) (queryForce : Option JSString)
    (upstream : Upstream) (st : State) :
    ((getEventsHandler rt cfg now clock queryType queryForce upstream st).1 = .failure ↔
      ((queryType = .other ∨
        ∃ err, (fetchDiscordEvents rt cfg now clock (decide (queryForce = some "1".toList))
          upstream st).result = .error err) ∧ st.cachedEvents = none)) ∧
    (∀ cached,
      (queryType = .other ∨
        ∃ err, (fetchDiscordEvents rt cfg now clock (decide (queryForce = some "1".toList))
          upstream st).result = .error err) →
      st.cachedEvents = some cached →
      (getEventsHandler rt cfg now clock queryType queryForce upstream st).1 =
          .events (cached.filter notPast) ∧
        (getEventsHandler rt cfg now clock queryType queryForce upstream st).2.cachedEvents =
          st.cachedEvents ∧
        (getEventsHandler rt cfg now clock queryType queryForce upstream st).2.cachedAt =
          st.cachedAt) ∧
    (cfg.configured = false →
      ((getEventsHandler rt cfg now clock queryType queryForce upstream st).1 = .failure ↔
        (queryType = .other ∧ st.cachedEvents = none))) := by
  have hstate : ∀ (q : Option JSString) (err : FetchError),
      (fetchDiscordEvents rt cfg now clock (decide (queryForce = some "1".toList))
        upstream st).result = .error err →
      (getEvents rt cfg now clock q queryForce upstream st).2 = st := by
    intro q err herr
    have hst := fetch_error_state rt cfg now clock _ upstream st err herr
    simp only [getEvents, herr, hst]
    cases st.cachedEvents <;> rfl
  have hnoerr : cfg.configured = false → ¬ ∃ err,
      (fetchDiscordEvents rt cfg now clock (decide (queryForce = some "1".toList))
        upstream st).result = .error err := by
    rintro hcfg ⟨err, herr⟩
    rw [fetch_unconfigured rt cfg now clock _ upstream st hcfg] at herr
    cases herr
  cases queryType with
  | other =>
    simp only [getEventsHandler, true_or, true_and, forall_const, and_true]
    cases hc : st.cachedEvents <;> simp [hc]
  | absent =>
    have h := getEvents_failure_iff rt cfg now clock none queryForce upstream st
    simp only [getEventsHandler, reduceCtorEq, false_or, false_and, iff_false]
    refine ⟨h.1, fun cached herr hc => ?_, fun hcfg => h.2.2 hcfg⟩
    obtain ⟨err, herr⟩ := herr
    rw [h.2.1 err cached herr hc, hstate none err herr]
    exact ⟨rfl, rfl, rfl⟩
  | text value =>
    have h := getEvents_failure_iff rt cfg now clock (some value) queryForce upstream st
    simp only [getEventsHandler, reduceCtorEq, false_or, false_and, iff_false]
    refine ⟨h.1, fun cached herr hc => ?_, fun hcfg => h.2.2 hcfg⟩
    obtain ⟨err, herr⟩ := herr
    rw [h.2.1 err cached herr hc, hstate (some value) err herr]
    exact ⟨rfl, rfl, rfl⟩

/-- C16, amended, at the initial state with credentials: a request with the type
filter `irl` whose `fetch` is rejected gets the failure response. -/
theorem getEventsHandler_failure_iff_witness :
    (getEventsHandler asciiRuntime ⟨some "1".toList, some "t".toList⟩ 0 (fun _ => 0)
      (.text "irl".toList) none .failed State.initial).1 = .failure :=
  (getEventsHandler_failure_iff asciiRuntime ⟨some "1".toList, some "t".toList⟩ 0
    (fun _ => 0) (.text "irl".toList) none .failed State.initial).1.mpr
    ⟨Or.inr ⟨.transport, rfl⟩, rfl⟩

/-- Whenever the read endpoint answers with an event list, whatever the parameter
`type` is, no record of the list has the status code `past`. -/
theorem getEventsHandler_no_past (rt : Runtime) (cfg : Config) (now : Int)
    (clock : Nat → Int) (queryType : QueryValue) (queryForce : Option JSString)
    (upstream : Upstream) (st : State) (list : List EnrichedEvent)
    (hresp : (getEventsHandler rt cfg now clock queryType queryForce upstream st).1 =
      .events list) :
    ∀ e ∈ list, e.status.code ≠ "past".toList := by
  cases queryType with
  | absent => exact (getEvents_no_past rt cfg now clock none queryForce upstream st list hresp).1
  | text value =>
    exact (getEvents_no_past rt cfg now clock (some value) queryForce upstream st list hresp).1
  | other =>
    simp only [getEventsHandler] at hresp
    cases hc : st.cachedEvents with
    | none =>
      rw [hc] at hresp
      cases hresp
    | some cached =>
      rw [hc] at hresp
      cases hresp
      exact fun e he => code_ne_past_of_mem_filter _ e he

end DiscordEvents
